import Mathlib

/-!
A shallow Lean embedding of the PSD2 API discovery crawler.

The repository ships three implementations of the same engine:

* `docs/js/api-discovery.js`, first class (the "basic" client engine):
  `scanWebsite`, `analyzePage`, `calculateRelevance`, `extractLinks`,
  `extractApis`, `determineApiTypes`, `deduplicateApis` (first-seen wins);
  embedded in namespace `Client`.
* `docs/js/api-discovery.js`, second class (the "enhanced" client engine):
  only its `deduplicateApis` (higher `confidence_score` wins) is relevant to
  the claims; embedded in namespace `Enhanced`.
* the Playwright scraper (`analyzePageContent`, `extractLinks`, `crawlSite`,
  the `scrape` merge step); embedded in namespace `Node`.

Modelling conventions:

* JavaScript strings are Lean `String`s; all primitive operations
  (`toLowerCase`, `includes`, `split`, …) are defined over `String.data`
  (lists of characters) so that concrete instances reduce in the kernel.
* JavaScript numbers are modelled as rationals (`ℚ`); the scores the engine
  manipulates are small decimal fractions for which rational arithmetic is
  the intended reading of the spec.
* The WHATWG `URL` platform class is modelled by `UrlM` (scheme, host,
  path+query, fragment) with resolution of absolute, root-relative and
  path-relative references; `.`/`..` segment normalisation and userinfo /
  port handling are out of scope for the claims and are not modelled.
* Network fetching, DOM parsing and the browser are external collaborators:
  a crawl is parametrised by a fetch oracle (`String → Option …`) that
  returns the document data the engine consumes, or `none` for a fetch
  failure.
* Wall-clock timestamps (`discovered_at`, timeouts, wait times) are not
  modelled; the `discovered_at` field is omitted from `ApiRecord`.
-/

/-! ## String primitives (JavaScript semantics, character-list based) -/

/-- JavaScript `String.prototype.toLowerCase`, modelled per character. -/
def lowerStr (s : String) : String := String.mk (s.data.map Char.toLower)

/-- JavaScript `String.prototype.includes`: substring test
(`needle` occurs contiguously in `hay`; the empty needle matches). -/
def containsStr (hay needle : String) : Bool := decide (needle.data <:+: hay.data)

/-- JavaScript `String.prototype.startsWith`. -/
def startsWithStr (s pre : String) : Bool := pre.data.isPrefixOf s.data

/-- JavaScript `String.prototype.endsWith`. -/
def endsWithStr (s suf : String) : Bool := decide (suf.data <:+ s.data)

/-- Split a character list at the first occurrence of `sep`:
returns the part before and (if found) the part after the separator. -/
def splitFirstChar (sep : Char) : List Char → List Char × Option (List Char)
  | [] => ([], none)
  | c :: rest =>
    if c = sep then ([], some rest)
    else
      let (pre, post) := splitFirstChar sep rest
      (c :: pre, post)

/-- Split a character list at the first occurrence of the sequence `pat`:
returns the part before and the part after the pattern, if present. -/
def splitFirstSeq (pat : List Char) : List Char → Option (List Char × List Char)
  | [] => if pat = [] then some ([], []) else none
  | c :: rest =>
    if pat.isPrefixOf (c :: rest) then some ([], (c :: rest).drop pat.length)
    else
      match splitFirstSeq pat rest with
      | some (pre, post) => some (c :: pre, post)
      | none => none

/-- Replace the first occurrence of `pat` by `sub` (JavaScript
`String.prototype.replace` with a plain-string pattern). -/
def replaceFirstStr (s pat sub : String) : String :=
  match splitFirstSeq pat.data s.data with
  | some (pre, post) => String.mk (pre ++ sub.data ++ post)
  | none => s

/-- First component of JavaScript `s.split(sep)[0]` for a single-character
separator: the prefix of `s` before the first `sep` (all of `s` if absent). -/
def firstComp (sep : Char) (s : String) : String :=
  String.mk (s.data.takeWhile (fun c => ¬ c = sep))

/-- JavaScript `s.split(c)` for a single-character separator. -/
def splitChar (sep : Char) (s : String) : List String :=
  (s.data.splitOn sep).map String.mk

/-- Count non-overlapping occurrences of `needle` in `hay`, scanning left to
right (the length of `hay.match(new RegExp(escapedNeedle, "g"))`).
The fuel argument is the scan position budget; it is initialised to the
length of the haystack, which suffices because every step consumes at least
one character. An empty needle yields 0 (the engine never uses one). -/
def countOccsAux (needle : List Char) : Nat → List Char → Nat
  | 0, _ => 0
  | _ + 1, [] => 0
  | fuel + 1, c :: rest =>
    if needle.isPrefixOf (c :: rest) then
      1 + countOccsAux needle fuel ((c :: rest).drop needle.length)
    else
      countOccsAux needle fuel rest

def countOccs (needle hay : String) : Nat :=
  if needle.data = [] then 0 else countOccsAux needle.data hay.data.length hay.data

/-- Collapse runs of whitespace to single spaces
(JavaScript `replace(/\s+/g, " ")`). -/
def collapseWsAux : Bool → List Char → List Char
  | _, [] => []
  | prevWs, c :: rest =>
    if c.isWhitespace then
      (if prevWs then [] else [' ']) ++ collapseWsAux true rest
    else c :: collapseWsAux false rest

def collapseWs (s : String) : String := String.mk (collapseWsAux false s.data)

/-- JavaScript `String.prototype.trim`: strip whitespace at both ends. -/
def trimStr (s : String) : String :=
  String.mk (((s.data.dropWhile Char.isWhitespace).reverse.dropWhile Char.isWhitespace).reverse)

/-! ## URL model

`UrlM` models the WHATWG `URL` platform class for the `scheme://host/path`
URLs the crawler manipulates.  `path` carries everything between the host
and the fragment (including any query); `frag` is the fragment without the
leading `#`. -/

structure UrlM where
  scheme : String
  host : String
  path : String
  frag : String
deriving DecidableEq, Repr

/-- A character allowed in a URL scheme (letter, digit, `+`, `-`, `.`). -/
def isSchemeChar (c : Char) : Bool := c.isAlphanum || c = '+' || c = '-' || c = '.'

/-- Parse an absolute URL of shape `scheme://host[/path][#frag]`.
Returns `none` when the input has no `://`, a malformed scheme or an empty
host, modelling the `TypeError` thrown by `new URL` on unparsable input. -/
def parseAbs (s : String) : Option UrlM :=
  match splitFirstSeq [':', '/', '/'] s.data with
  | none => none
  | some (schemeCs, rest) =>
    if ¬ (schemeCs.headD ' ').isAlpha ∨ ¬ schemeCs.all isSchemeChar then none
    else
      let (beforeHash, fragPart) := splitFirstChar '#' rest
      let host := beforeHash.takeWhile (fun c => ¬ c = '/')
      let path := beforeHash.drop host.length
      if host = [] then none
      else some ⟨String.mk schemeCs, String.mk host, String.mk path,
                 String.mk (fragPart.getD [])⟩

/-- Serialise a `UrlM` back to a string (`URL.prototype.href`). -/
def hrefOf (u : UrlM) : String :=
  u.scheme ++ "://" ++ u.host ++ u.path ++ (if u.frag = "" then "" else "#" ++ u.frag)

/-- The directory part of a path: everything up to and including the last
`/` (or `/` itself when the path has none). -/
def dirOf (path : String) : String :=
  let rev := path.data.reverse
  match splitFirstChar '/' rev with
  | (_, some keep) => String.mk (('/' :: keep).reverse)
  | (_, none) => "/"

/-- Resolution of a (possibly relative) reference against a base URL:
`new URL(href, base)`.  A reference parsing as an absolute URL stands
alone; otherwise it is resolved against the base: root-relative (`/p`),
fragment-only (`#f`) or path-relative; `none` when the base itself does
not parse.  References with a non-hierarchical scheme (`mailto:`, …) are
resolved as path-relative in this model; no claim depends on them. -/
def resolveUrl (href base : String) : Option UrlM :=
  match parseAbs href with
  | some u => some u
  | none =>
    match parseAbs base with
    | none => none
    | some b =>
      let (p, fragPart) := splitFirstChar '#' href.data
      let frag := String.mk (fragPart.getD [])
      if p = [] ∧ fragPart = none then some b
      else if p = [] then some { b with frag := frag }
      else if p.head? = some '/' then some { b with path := String.mk p, frag := frag }
      else some { b with path := dirOf b.path ++ String.mk p, frag := frag }

/-! ## Data model -/

/-- A discovered API record.  Field set merged over the engine variants
(fields a variant does not populate default to `""`); the wall-clock
`discovered_at` timestamp is not modelled. -/
structure ApiRecord where
  name : String
  api_type : String
  url : String
  source_page : String
  description : String := ""
  version : String := ""
  documentation_url : String := ""
  swagger_url : String := ""
  sandbox_url : String := ""
  production_url : String := ""
  authentication : String := ""
  confidence_score : ℚ
  keywords_found : List String := []
deriving DecidableEq, Repr

/-- A frontier entry: a URL pending a visit together with its crawl depth. -/
structure CrawlEntry where
  url : String
  depth : Nat
deriving DecidableEq, Repr

/-! ## Deduplication and merge -/

namespace Client

/-- Dedup key of the basic engine: `` `${api.url}|${api.api_type}` ``. -/
def dedupKey (a : ApiRecord) : String := a.url ++ "|" ++ a.api_type

/-- Worker of the basic `deduplicateApis`: a `seen` set of keys and an
accumulator (JS pushes to `unique`, modelled by a reversed accumulator). -/
def dedupGo (seen : List String) (acc : List ApiRecord) : List ApiRecord → List ApiRecord
  | [] => acc.reverse
  | a :: rest =>
    if dedupKey a ∈ seen then dedupGo seen acc rest
    else dedupGo (dedupKey a :: seen) (a :: acc) rest

/-- Basic engine `deduplicateApis`: keeps the first record seen for each
`url|api_type` key (the confidence score is not consulted). -/
def deduplicateApis (apis : List ApiRecord) : List ApiRecord := dedupGo [] [] apis

end Client

/-- A JavaScript `Map` from strings to API records, modelled as an
insertion-ordered association list: `set` on an existing key updates the
value in place; on a fresh key it appends. -/
def mapSet (m : List (String × ApiRecord)) (k : String) (v : ApiRecord) :
    List (String × ApiRecord) :=
  if m.any (fun p => decide (p.1 = k)) then
    m.map (fun p => if p.1 = k then (k, v) else p)
  else m ++ [(k, v)]

/-- `Map.prototype.get`, returning `none` for an absent key. -/
def mapGet (m : List (String × ApiRecord)) (k : String) : Option ApiRecord :=
  (m.find? (fun p => decide (p.1 = k))).map (fun p => p.2)

namespace Enhanced

/-- Dedup key of the enhanced engine: `` `${api.name}|${api.api_type}` ``. -/
def dedupKey (a : ApiRecord) : String := a.name ++ "|" ++ a.api_type

/-- Worker of the enhanced `deduplicateApis`: walks the input updating a
`Map`; a record replaces the stored one exactly when its
`confidence_score` is strictly greater. -/
def dedupGo (m : List (String × ApiRecord)) : List ApiRecord → List (String × ApiRecord)
  | [] => m
  | a :: rest =>
    match mapGet m (dedupKey a) with
    | none => dedupGo (mapSet m (dedupKey a) a) rest
    | some existing =>
      if existing.confidence_score < a.confidence_score then
        dedupGo (mapSet m (dedupKey a) a) rest
      else dedupGo m rest

/-- Enhanced engine `deduplicateApis`: for each `name|api_type` key the
record with the highest `confidence_score` wins (first one on ties). -/
def deduplicateApis (apis : List ApiRecord) : List ApiRecord :=
  (dedupGo [] apis).map (fun p => p.2)

end Enhanced

namespace Node

/-- One pass of the scraper merge: `for (api of list) map.set(api.source_page, api)`. -/
def insertAllBySource (m : List (String × ApiRecord)) : List ApiRecord → List (String × ApiRecord)
  | [] => m
  | a :: rest => insertAllBySource (mapSet m a.source_page a) rest

/-- The scraper's cross-run merge (`scrape`): a `Map` keyed on
`source_page`, filled with the stored records and then with the new ones,
so the newest record for a page always wins (last-write-wins). The final
presentation sort by confidence is separate and not part of `mergeApis`. -/
def mergeApis (existing incoming : List ApiRecord) : List ApiRecord :=
  (insertAllBySource (insertAllBySource [] existing) incoming).map (fun p => p.2)

end Node

/-! ## Stable sorting (JavaScript `Array.prototype.sort`)

Modern engines implement a stable sort; we model a comparator-driven stable
sort as insertion sort with a boolean "less or equal" relation. -/

def insertLe {α : Type} (le : α → α → Bool) (a : α) : List α → List α
  | [] => [a]
  | b :: rest => if le b a then b :: insertLe le a rest else a :: b :: rest

def stableSortBy {α : Type} (le : α → α → Bool) : List α → List α
  | [] => []
  | a :: rest => insertLe le a (stableSortBy le rest)

namespace Client

/-- The `general` category of the PSD2 keyword taxonomy, in source order. -/
def generalKeywords : List String :=
  ["psd2", "open banking", "openbanking", "api portal", "developer portal",
   "api documentation", "api sandbox", "tpp", "third party provider",
   "berlin group", "nextgenpsd2", "stet", "open bank project",
   "oauth", "oauth2", "openid connect", "client credentials",
   "xs2a", "access to account"]

def aisKeywords : List String :=
  ["account information", "ais api", "ais-api", "account access", "balance",
   "transaction history", "account list", "aisp",
   "account information service", "read account", "get accounts",
   "/accounts", "/balances", "/transactions"]

def pisKeywords : List String :=
  ["payment initiation", "pis api", "pis-api", "pisp", "initiate payment",
   "payment service", "sepa payment", "instant payment", "bulk payment",
   "payment submission", "/payments", "/payment-initiations",
   "domestic payment", "international payment"]

def cafKeywords : List String :=
  ["confirmation of funds", "caf api", "caf-api", "funds confirmation",
   "piis", "card based payment", "fundsconfirmation",
   "/funds-confirmations", "available funds"]

def technicalKeywords : List String :=
  ["swagger", "openapi", "api specification", "rest api", "json api",
   "postman", "api reference", "api explorer", "try it out",
   "sandbox environment", "test environment", "production api"]

/-- The PSD2 keyword taxonomy of the basic client engine, in source order. -/
def PSD2_KEYWORDS : List (String × List String) :=
  [("general", generalKeywords), ("ais", aisKeywords), ("pis", pisKeywords),
   ("caf", cafKeywords), ("technical", technicalKeywords)]

/-- `API_URL_PATTERNS`: each regex `/\/xxx/i` is a case-insensitive
substring test for the literal path fragment. -/
def API_URL_PATTERNS : List String :=
  ["/api", "/developer", "/openbanking", "/psd2", "/portal", "/documentation",
   "/docs", "/swagger", "/sandbox", "/tpp", "/xs2a", "/oauth"]

/-- `isApiRelatedUrl`: does any URL pattern match (case-insensitively)? -/
def isApiRelatedUrl (url : String) : Bool :=
  API_URL_PATTERNS.any (fun p => containsStr (lowerStr url) p)

/-- Keyword scan of `analyzePage`: for every category (in taxonomy order)
and every keyword whose lowercase form occurs in the lowercased page text,
record the tag `category:keyword`. -/
def findKeywords (textContent : String) : List String :=
  PSD2_KEYWORDS.flatMap (fun ckw =>
    (ckw.2.filter (fun kw => containsStr textContent (lowerStr kw))).map
      (fun kw => ckw.1 ++ ":" ++ kw))

/-- `calculateRelevance`: fixed weight per category present among the found
keyword tags (category = text before the first `:`), URL-pattern bonus,
capped at 1 by `Math.min`. -/
def calculateRelevance (keywordsFound : List String) (url : String) : ℚ :=
  let categoriesFound := keywordsFound.map (firstComp ':')
  let score : ℚ :=
    (if "general" ∈ categoriesFound then 3/10 else 0)
    + (if "ais" ∈ categoriesFound then 1/4 else 0)
    + (if "pis" ∈ categoriesFound then 1/4 else 0)
    + (if "caf" ∈ categoriesFound then 1/5 else 0)
    + (if "technical" ∈ categoriesFound then 1/5 else 0)
    + (if isApiRelatedUrl url then 1/5 else 0)
  min score 1

/-- An `<a href>` element as the engine consumes it: the raw `href`
attribute and the anchor's text content. -/
structure Anchor where
  href : String
  text : String
deriving DecidableEq, Repr

/-- The document data `analyzePage` extracts from a fetched page.  The
fetch + `DOMParser` pipeline is the external collaborator; `swaggerUrls`
carries the result of `findSwaggerSpecs` (a scan of the raw markup with
dynamically-built regexes, performed by the platform regex engine), which
no claim inspects. -/
structure PageDoc where
  title : String
  bodyText : String
  anchors : List Anchor
  swaggerUrls : List String
deriving Repr

/-- `extractLinks`: resolve every anchor against the current URL, keep only
links on the base hostname, strip the fragment (`fullUrl.hash = ""`), and
deduplicate preserving first-insertion order (a JS `Set`). -/
def extractLinks (anchors : List Anchor) (baseDomain currentUrl : String) : List String :=
  let baseHostname := ((parseAbs baseDomain).map (fun u => u.host)).getD ""
  anchors.foldl (fun links a =>
    if a.href = "" ∨ startsWithStr a.href "#" ∨ startsWithStr a.href "javascript:" then links
    else
      match resolveUrl a.href currentUrl with
      | none => links
      | some u =>
        if u.host = baseHostname then
          let clean := hrefOf { u with frag := "" }
          if clean ∈ links then links else links ++ [clean]
        else links) []

def docKeywords : List String :=
  ["documentation", "docs", "api reference", "getting started",
   "quickstart", "guide", "tutorial", "specification"]

/-- `findApiDocumentation`: the resolved URLs of anchors whose text or href
contains a documentation keyword (each anchor contributes at most once;
unresolvable hrefs are skipped). -/
def findApiDocumentation (anchors : List Anchor) (currentUrl : String) : List String :=
  (anchors.filter (fun a =>
    docKeywords.any (fun kw =>
      containsStr (lowerStr a.text) kw || containsStr (lowerStr a.href) kw))).filterMap
    (fun a => (resolveUrl a.href currentUrl).map hrefOf)

/-- The result of `analyzePage` for one page. -/
structure PageResult where
  url : String
  title : String
  isApiRelated : Bool
  relevanceScore : ℚ
  keywordsFound : List String
  links : List String
  apiDocumentationUrls : List String
  swaggerUrls : List String
  textContent : String
deriving Repr

/-- `analyzePage` on an already-fetched document. -/
def analyzePage (doc : PageDoc) (url baseDomain : String) : PageResult :=
  let textContent := lowerStr doc.bodyText
  let keywordsFound := findKeywords textContent
  let relevanceScore := calculateRelevance keywordsFound url
  { url := url
    title := doc.title
    isApiRelated := decide ((1:ℚ)/5 < relevanceScore)
    relevanceScore := relevanceScore
    keywordsFound := keywordsFound
    links := extractLinks doc.anchors baseDomain url
    apiDocumentationUrls := findApiDocumentation doc.anchors url
    swaggerUrls := doc.swaggerUrls
    textContent := String.mk (textContent.data.take 5000) }

/-- `determineApiTypes` from the found keyword tags (substring tests over
the space-joined, lowercased tag list). -/
def determineApiTypes (keywordsFound : List String) : List String :=
  let keywordsStr := lowerStr (String.intercalate " " keywordsFound)
  let types :=
    (if containsStr keywordsStr "ais" ∨ containsStr keywordsStr "account information"
        ∨ containsStr keywordsStr "aisp" then ["AIS"] else [])
    ++ (if containsStr keywordsStr "pis" ∨ containsStr keywordsStr "payment initiation"
        ∨ containsStr keywordsStr "pisp" then ["PIS"] else [])
    ++ (if containsStr keywordsStr "caf" ∨ containsStr keywordsStr "confirmation of funds"
        ∨ containsStr keywordsStr "piis" then ["CAF"] else [])
  let types :=
    if types = [] ∧ keywordsFound.any (fun kw => startsWithStr kw "general:") then ["PSD2"]
    else types
  if types = [] then ["Unknown"] else types

def descRelevanceKws : List String := ["api", "psd2", "banking", "payment", "account"]

/-- `extractDescription`: first of the leading 20 sentences that contains a
relevance keyword and whose cleaned form is longer than 20 characters;
otherwise the title, otherwise a fixed fallback. -/
def extractDescription (pr : PageResult) : String :=
  let sentences := (pr.textContent.data.splitOnP
    (fun c => decide (c = '.' ∨ c = '!' ∨ c = '?'))).map String.mk
  match (sentences.take 20).findSome? (fun sentence =>
    if descRelevanceKws.any (fun kw => containsStr sentence kw) then
      let clean := String.mk ((collapseWs (trimStr sentence)).data.take 300)
      if 20 < clean.length then some (clean ++ "...") else none
    else none) with
  | some d => d
  | none => if pr.title = "" then "No description available" else pr.title

/-- `extractApis`: one record per detected API type on a qualifying page. -/
def extractApis (pr : PageResult) (sourceUrl baseDomain : String) : List ApiRecord :=
  let apiTypes := determineApiTypes pr.keywordsFound
  let hostname := ((parseAbs baseDomain).map (fun u => u.host)).getD ""
  apiTypes.map (fun apiType =>
    { name := hostname ++ " - " ++ apiType
      url := baseDomain
      source_page := sourceUrl
      api_type := apiType
      description := extractDescription pr
      documentation_url := (pr.apiDocumentationUrls.head?).getD ""
      swagger_url := (pr.swaggerUrls.head?).getD ""
      confidence_score := pr.relevanceScore
      keywords_found := pr.keywordsFound })

/-- Frontier priority: API-looking URLs first (`aIsApi - bIsApi`),
ties by ascending depth (`a.depth - b.depth`). -/
def entryRank (e : CrawlEntry) : Nat := if isApiRelatedUrl e.url then 0 else 1

def entryLe (a b : CrawlEntry) : Bool :=
  decide (entryRank a < entryRank b ∨ (entryRank a = entryRank b ∧ a.depth ≤ b.depth))

def sortFrontier : List CrawlEntry → List CrawlEntry := stableSortBy entryLe

/-- An entry of `apiRelatedPages`. -/
structure ApiPage where
  url : String
  relevanceScore : ℚ
  keywords : List String
deriving DecidableEq, Repr

/-- The mutable state of one `scanWebsite` crawl.  `processed` is ghost
instrumentation recording, in reverse order, every frontier entry that
passed the visited/depth guard (i.e. was fetched and analyzed); it does not
influence the computation. -/
structure ScanState where
  visited : List String
  toVisit : List CrawlEntry
  pagesScanned : Nat
  discoveredApis : List ApiRecord
  apiRelatedPages : List ApiPage
  processed : List CrawlEntry
deriving Repr

/-- The body of one successful fetch+analyze step: record API data when the
page qualifies, then (below the depth limit) enqueue unvisited links and
re-sort the frontier. -/
def processFetched (maxDepth : Nat) (baseDomain : String) (e : CrawlEntry) (doc : PageDoc)
    (s : ScanState) : ScanState :=
  let pr := analyzePage doc e.url baseDomain
  let s2 :=
    if pr.isApiRelated then
      { s with
        apiRelatedPages := s.apiRelatedPages ++ [⟨e.url, pr.relevanceScore, pr.keywordsFound⟩],
        discoveredApis := s.discoveredApis ++ extractApis pr e.url baseDomain }
    else s
  if e.depth < maxDepth then
    let newEntries := (pr.links.filter (fun l => decide (l ∉ s2.visited))).map
      (fun l => CrawlEntry.mk l (e.depth + 1))
    { s2 with toVisit := sortFrontier (s2.toVisit ++ newEntries) }
  else s2

/-- The `while` loop of `scanWebsite`: run while the frontier is non-empty
and the page budget is not exhausted; visited or too-deep entries are
discarded without counting; a failed fetch (`none`) is logged and skipped
after consuming budget. -/
def scanLoop (fetch : String → Option PageDoc) (maxDepth maxPages : Nat)
    (baseDomain : String) (s : ScanState) : ScanState :=
  match hv : s.toVisit with
  | [] => s
  | e :: rest =>
    if hp : s.pagesScanned < maxPages then
      if e.url ∈ s.visited ∨ maxDepth < e.depth then
        scanLoop fetch maxDepth maxPages baseDomain { s with toVisit := rest }
      else
        let s1 : ScanState :=
          { s with visited := e.url :: s.visited, toVisit := rest,
                   pagesScanned := s.pagesScanned + 1, processed := e :: s.processed }
        match fetch e.url with
        | none => scanLoop fetch maxDepth maxPages baseDomain s1
        | some doc =>
          scanLoop fetch maxDepth maxPages baseDomain (processFetched maxDepth baseDomain e doc s1)
    else s
termination_by (maxPages - s.pagesScanned, s.toVisit.length)
decreasing_by
  · apply Prod.Lex.right
    simp [hv]
  · apply Prod.Lex.left
    omega
  · have hpf : (processFetched maxDepth baseDomain e doc
        { s with visited := e.url :: s.visited, toVisit := rest,
                 pagesScanned := s.pagesScanned + 1, processed := e :: s.processed }).pagesScanned
        = s.pagesScanned + 1 := by
      simp only [processFetched]
      split <;> split <;> rfl
    rw [hpf]
    apply Prod.Lex.left
    omega

/-- One site-scan result of the basic engine. -/
structure SiteScanResult where
  url : String
  status : String
  error : Option String := none
  pagesScanned : Nat
  apiRelatedPages : List ApiPage := []
  apis : List ApiRecord
deriving Repr

def initState (startUrl : String) : ScanState :=
  { visited := [], toVisit := [⟨startUrl, 0⟩], pagesScanned := 0,
    discoveredApis := [], apiRelatedPages := [], processed := [] }

/-- `scanWebsite`: parse the start URL (an unparsable one throws, modelled
as `Except.error` with a human-readable message), run the crawl loop from
the seeded frontier, deduplicate, and report success. -/
def scanWebsite (fetch : String → Option PageDoc) (maxDepth maxPages : Nat)
    (startUrl : String) : Except String SiteScanResult :=
  match parseAbs startUrl with
  | none => .error ("Invalid URL: " ++ startUrl)
  | some u =>
    let baseDomain := u.scheme ++ "://" ++ u.host
    let final := scanLoop fetch maxDepth maxPages baseDomain (initState startUrl)
    .ok { url := startUrl, status := "success", pagesScanned := final.pagesScanned,
          apiRelatedPages := final.apiRelatedPages,
          apis := deduplicateApis final.discoveredApis }

/-- The per-seed step of `discoverApis`: a thrown site-level error is caught
and converted into an error-status result with no APIs and zero pages. -/
def scanSeed (fetch : String → Option PageDoc) (maxDepth maxPages : Nat)
    (u : String) : SiteScanResult :=
  match scanWebsite fetch maxDepth maxPages u with
  | .ok r => r
  | .error e => { url := u, status := "error", error := some e, pagesScanned := 0, apis := [] }

/-- The aggregate returned by `discoverApis` (`scanTimestamp` is wall-clock
and not modelled). -/
structure DiscoverResult where
  totalApisFound : Nat
  apis : List ApiRecord
  scanResults : List SiteScanResult
deriving Repr

/-- `discoverApis`: scan every seed URL in order, collecting one
`SiteScanResult` per seed and concatenating the discovered APIs. -/
def discoverApis (fetch : String → Option PageDoc) (maxDepth maxPages : Nat)
    (urls : List String) : DiscoverResult :=
  let results := urls.map (scanSeed fetch maxDepth maxPages)
  let allApis := results.flatMap (fun r => r.apis)
  { totalApisFound := allApis.length, apis := allApis, scanResults := results }

end Client

namespace Node

/-- `isApiRelatedUrl` of the scraper: path-keyword substring test. -/
def apiPathKeywords : List String :=
  ["api", "apis", "developer", "developers", "docs", "documentation",
   "reference", "openbanking", "open-banking", "psd2", "sandbox",
   "product", "products", "service", "services", "account", "payment",
   "specification", "swagger", "openapi"]

def isApiRelatedUrl (url : String) : Bool :=
  apiPathKeywords.any (fun kw => containsStr (lowerStr url) kw)

/-- `getBaseDomain`: hostname with a first `www.` removed, reduced to its
last two dot-separated labels; the URL itself when parsing fails. -/
def getBaseDomain (url : String) : String :=
  match parseAbs url with
  | none => url
  | some u =>
    let parts := splitChar '.' (replaceFirstStr u.host "www." "")
    String.intercalate "." (parts.drop (parts.length - 2))

/-- JavaScript `charAt(0).toUpperCase() + slice(1)`. -/
def capitalizeStr (s : String) : String :=
  match s.data with
  | [] => ""
  | c :: rest => String.mk (c.toUpper :: rest)

/-- `getProviderName`: first hostname label after stripping `developer.`
and `www.`, capitalised; `"Unknown"` when the URL does not parse. -/
def getProviderName (url : String) : String :=
  match parseAbs url with
  | none => "Unknown"
  | some u =>
    capitalizeStr
      ((splitChar '.' (replaceFirstStr (replaceFirstStr u.host "developer." "") "www." "")).headD "")

/-- The keyword configuration the scraper loads from `config.json`
(`keywords: {psd2, ais, pis, caf}`); the file itself is not in the
repository snapshot, so the lists are parameters of the embedding. -/
structure KeywordConfig where
  psd2 : List String
  ais : List String
  pis : List String
  caf : List String
deriving Repr

/-- Per-category keyword scan: add the number of (non-overlapping,
case-insensitive) occurrences of each keyword, and append each matching
keyword once to the global `foundKeywords` list. -/
def scanCategory (lowerContent : String) (kws : List String) (acc : Nat × List String) :
    Nat × List String :=
  kws.foldl (fun acc kw =>
    let m := countOccs (lowerStr kw) lowerContent
    if 0 < m then (acc.1 + m, if kw ∈ acc.2 then acc.2 else acc.2 ++ [kw]) else acc) acc

/-- The four per-category match counts (psd2, ais, pis, caf) and the
accumulated `foundKeywords`, in configuration order. -/
def analyzeCounts (kws : KeywordConfig) (lowerContent : String) :
    (Nat × Nat × Nat × Nat) × List String :=
  let r1 := scanCategory lowerContent kws.psd2 (0, [])
  let r2 := scanCategory lowerContent kws.ais (0, r1.2)
  let r3 := scanCategory lowerContent kws.pis (0, r2.2)
  let r4 := scanCategory lowerContent kws.caf (0, r3.2)
  ((r1.1, r2.1, r3.1, r4.1), r4.2)

/-- The primary-type selection chain: start from `PSD2`/psd2-count and let
each of ais, pis, caf take over on a strictly greater count. -/
def pickApiType (psd2c aisc pisc cafc : Nat) : String :=
  let s1 : String × Nat := ("PSD2", psd2c)
  let s2 := if s1.2 < aisc then ("AIS", aisc) else s1
  let s3 := if s2.2 < pisc then ("PIS", pisc) else s2
  let s4 := if s3.2 < cafc then ("CAF", cafc) else s3
  s4.1

/-- JavaScript `Math.round(x * 100) / 100` for a non-negative rational. -/
def round2 (q : ℚ) : ℚ := ((⌊q * 100 + 1 / 2⌋ : ℤ) : ℚ) / 100

/-- `analyzePageContent`.  The three content probes model the platform
regex engine runs the source performs on the raw markup: `descMatch` is
the first capture of the description pattern chain, `docHref` /
`swaggerHref` the captured href of the documentation / swagger link
patterns (`none` when nothing matches).  No claim depends on their values.
A `null` URL field is modelled as `""`.  `new URL(url).origin` is modelled
as `""` for an unparsable `url`; inside a crawl every analyzed URL parses. -/
def analyzePageContent (kws : KeywordConfig)
    (descMatch docHref swaggerHref : String → Option String)
    (url content title : String) : List ApiRecord :=
  let lowerContent := lowerStr content
  let lowerTitle := lowerStr title
  let counts := analyzeCounts kws lowerContent
  let psd2c := counts.1.1
  let aisc := counts.1.2.1
  let pisc := counts.1.2.2.1
  let cafc := counts.1.2.2.2
  let foundKeywords := counts.2
  let totalMatches := psd2c + aisc + pisc + cafc
  if totalMatches = 0 then []
  else
    let apiType := pickApiType psd2c aisc pisc cafc
    let conf1 : ℚ := min ((totalMatches : ℚ) / 20) 1
    let conf2 := if isApiRelatedUrl url then min (conf1 + 2 / 10) 1 else conf1
    let conf3 :=
      if containsStr lowerTitle "api" ∨ containsStr lowerTitle "psd2"
         ∨ containsStr lowerTitle "open banking" then min (conf2 + 1 / 10) 1
      else conf2
    if (3 : ℚ) / 10 ≤ conf3 then
      let providerName := getProviderName url
      let description :=
        match descMatch content with
        | some d => String.mk ((trimStr d).data.take 300)
        | none => apiType ++ " API from " ++ providerName ++ " - PSD2 compliant banking API"
      [{ name := providerName ++ " " ++ apiType ++ " API"
         api_type := apiType
         url := ((parseAbs url).map (fun u => u.scheme ++ "://" ++ u.host)).getD ""
         source_page := url
         description := description
         documentation_url :=
           ((docHref content).bind (fun h => (resolveUrl h url).map hrefOf)).getD ""
         swagger_url :=
           ((swaggerHref content).bind (fun h => (resolveUrl h url).map hrefOf)).getD ""
         confidence_score := round2 conf3
         keywords_found := foundKeywords.take 10 }]
    else []

/-- A character excluded from the capture group of the scraper's href
regex `href=["]([^"#]+)["]` (double quote, single quote, or hash). -/
def hrefBadChar (c : Char) : Bool := c = '"' ∨ c = Char.ofNat 39 ∨ c = '#'

/-- A single or double quote. -/
def quoteChar (c : Char) : Bool := c = '"' ∨ c = Char.ofNat 39

/-- Try to match the href regex at the head of the character list: the
literal `href=` (case-insensitive), an opening quote, one or more
characters none of which is a quote or `#`, and a closing quote.  Returns
the capture and the characters after the match. -/
def tryHref : List Char → Option (String × List Char)
  | h :: r :: e :: f :: eqc :: q :: rest =>
    if h.toLower = 'h' ∧ r.toLower = 'r' ∧ e.toLower = 'e' ∧ f.toLower = 'f'
       ∧ eqc = '=' ∧ quoteChar q then
      let cap := rest.takeWhile (fun c => ¬ hrefBadChar c)
      match rest.drop cap.length with
      | q2 :: rest2 => if cap ≠ [] ∧ quoteChar q2 then some (String.mk cap, rest2) else none
      | [] => none
    else none
  | _ => none

/-- All captures of the global href regex over the content, scanning left
to right (after a match the scan resumes after the closing quote; after a
failure it advances one character, as the regex engine does).  The fuel is
initialised to the content length, which suffices because every step
consumes at least one character. -/
def scanHrefsAux : Nat → List Char → List String
  | 0, _ => []
  | _ + 1, [] => []
  | fuel + 1, c :: rest =>
    match tryHref (c :: rest) with
    | some (cap, rest2) => cap :: scanHrefsAux fuel rest2
    | none => scanHrefsAux fuel rest

def scanHrefs (content : String) : List String :=
  scanHrefsAux content.data.length content.data

def skipExtensions : List String :=
  [".pdf", ".zip", ".png", ".jpg", ".gif", ".css", ".js", ".svg"]

/-- The scraper's `extractLinks`: resolve every captured href against the
page URL, keep same-base-domain links without `#` and without a skipped
resource extension, deduplicated in first-insertion order (a JS `Set`). -/
def extractLinks (baseUrl content : String) : List String :=
  let baseDomain := getBaseDomain baseUrl
  (scanHrefs content).foldl (fun links m =>
    match resolveUrl m baseUrl with
    | none => links
    | some u =>
      let link := hrefOf u
      if getBaseDomain link = baseDomain ∧ ¬ containsStr link "#"
         ∧ ¬ skipExtensions.any (fun ext => endsWithStr (lowerStr link) ext) then
        if link ∈ links then links else links ++ [link]
      else links) []

/-- Link prioritisation of the scraper: API-looking URLs first, discovery
order otherwise (stable sort with a 0/1 rank). -/
def sortLinks : List String → List String :=
  stableSortBy (fun a b =>
    decide ((if isApiRelatedUrl a then 0 else 1) ≤ (if isApiRelatedUrl b then (0 : Nat) else 1)))

/-- The mutable state of one `crawlSite` run.  `processed` is ghost
instrumentation recording, in reverse order, every frontier entry that
passed the visited guard (i.e. whose page load was attempted); it does not
influence the computation. -/
structure NodeState where
  visited : List String
  toVisit : List CrawlEntry
  pagesScanned : Nat
  apis : List ApiRecord
  apiRelatedPages : List String
  processed : List CrawlEntry
deriving Repr

/-- The body of one successful page load: consume one unit of page
budget, record the found APIs (and the page, when any were found), then
(below the depth limit) enqueue unvisited links sorted API-first. -/
def processLoaded (kws : KeywordConfig)
    (descMatch docHref swaggerHref : String → Option String) (maxDepth : Nat)
    (e : CrawlEntry) (ct : String × String) (s : NodeState) : NodeState :=
  let s2 : NodeState := { s with pagesScanned := s.pagesScanned + 1 }
  let foundApis := analyzePageContent kws descMatch docHref swaggerHref e.url ct.1 ct.2
  let s3 : NodeState :=
    if foundApis = [] then s2
    else { s2 with apis := s2.apis ++ foundApis,
                   apiRelatedPages := s2.apiRelatedPages ++ [e.url] }
  if e.depth < maxDepth then
    let newEntries := ((sortLinks (extractLinks e.url ct.1)).filter
      (fun l => decide (l ∉ s3.visited))).map (fun l => CrawlEntry.mk l (e.depth + 1))
    { s3 with toVisit := s3.toVisit ++ newEntries }
  else s3

/-- The `while` loop of `crawlSite`.  The fetch oracle models
`page.goto` + `page.content()` + `page.title()` and returns
`(content, title)` or `none` for a load error; a failed load consumes no
page budget (the source increments `pagesScanned` only after the content
is retrieved) but the URL stays visited. -/
def crawlLoop (fetch : String → Option (String × String)) (kws : KeywordConfig)
    (descMatch docHref swaggerHref : String → Option String)
    (maxDepth maxPagesPerSite : Nat) (s : NodeState) : NodeState :=
  match hv : s.toVisit with
  | [] => s
  | e :: rest =>
    if hp : s.pagesScanned < maxPagesPerSite then
      if e.url ∈ s.visited then
        crawlLoop fetch kws descMatch docHref swaggerHref maxDepth maxPagesPerSite
          { s with toVisit := rest }
      else
        let s1 : NodeState :=
          { s with visited := e.url :: s.visited, toVisit := rest, processed := e :: s.processed }
        match fetch e.url with
        | none => crawlLoop fetch kws descMatch docHref swaggerHref maxDepth maxPagesPerSite s1
        | some ct =>
          crawlLoop fetch kws descMatch docHref swaggerHref maxDepth maxPagesPerSite
            (processLoaded kws descMatch docHref swaggerHref maxDepth e ct s1)
    else s
termination_by (maxPagesPerSite - s.pagesScanned, s.toVisit.length)
decreasing_by
  · apply Prod.Lex.right
    simp [hv]
  · apply Prod.Lex.right
    simp [hv]
  · have hpl : (processLoaded kws descMatch docHref swaggerHref maxDepth e ct
        { s with visited := e.url :: s.visited, toVisit := rest,
                 processed := e :: s.processed }).pagesScanned
        = s.pagesScanned + 1 := by
      simp only [processLoaded]
      split <;> split <;> rfl
    rw [hpl]
    apply Prod.Lex.left
    omega

/-- One site-scan result of the scraper (always `status = "success"`; the
scraper's site-level try/catch lives in `scrape`). -/
structure NodeScanResult where
  url : String
  status : String
  pagesScanned : Nat
  apiRelatedPages : List String
  apis : List ApiRecord
deriving Repr

def initState (startUrl : String) : NodeState :=
  { visited := [], toVisit := [⟨startUrl, 0⟩], pagesScanned := 0,
    apis := [], apiRelatedPages := [], processed := [] }

/-- `crawlSite`: run the loop from the seeded frontier and package the
result (no per-site deduplication in the scraper). -/
def crawlSite (fetch : String → Option (String × String)) (kws : KeywordConfig)
    (descMatch docHref swaggerHref : String → Option String)
    (maxDepth maxPagesPerSite : Nat) (startUrl : String) : NodeScanResult :=
  let final := crawlLoop fetch kws descMatch docHref swaggerHref maxDepth maxPagesPerSite
    (initState startUrl)
  { url := startUrl, status := "success", pagesScanned := final.pagesScanned,
    apiRelatedPages := final.apiRelatedPages, apis := final.apis }

end Node

namespace Client

/-- One category's keyword-match test: at least one taxonomy keyword of
the category occurs in the (lowercased) page text. -/
def catPresent (textContent : String) (kws : List String) : Bool :=
  kws.any (fun kw => containsStr textContent (lowerStr kw))

/-- Spec-side restatement of the relevance formula (claim C4): starting
from 0, add a fixed weight for each keyword category having at least one
match on the page text — general 0.30, ais 0.25, pis 0.25, caf 0.20,
technical 0.20 — add 0.20 when the URL matches one of the API path
patterns, and clamp the total to [0,1].  Stated independently of the
source's tagged-keyword bookkeeping, to be compared with
`calculateRelevance ∘ findKeywords`. -/
def relevanceClaim (textContent url : String) : ℚ :=
  let base : ℚ :=
    (if catPresent textContent generalKeywords then 3 / 10 else 0)
    + (if catPresent textContent aisKeywords then 1 / 4 else 0)
    + (if catPresent textContent pisKeywords then 1 / 4 else 0)
    + (if catPresent textContent cafKeywords then 1 / 5 else 0)
    + (if catPresent textContent technicalKeywords then 1 / 5 else 0)
    + (if isApiRelatedUrl url then 1 / 5 else 0)
  min (max base 0) 1

/-- One category's contribution to `findKeywords` (proof helper). -/
def tagged (cat : String) (kws : List String) (textContent : String) : List String :=
  (kws.filter (fun kw => containsStr textContent (lowerStr kw))).map (fun kw => cat ++ ":" ++ kw)

end Client

/-! ## Concrete records instantiating the deduplication claims -/

/-- `lowConf` and `highConf` share the basic dedup key `url|api_type`,
with confidence scores 0.4 and 0.8. -/
def lowConf : ApiRecord :=
  { name := "Alpha", api_type := "AIS", url := "https://bank.example",
    source_page := "https://bank.example/a", confidence_score := 0.4 }

def highConf : ApiRecord :=
  { name := "Beta", api_type := "AIS", url := "https://bank.example",
    source_page := "https://bank.example/b", confidence_score := 0.8 }

/-- `lowConfN` and `highConfN` share the enhanced dedup key
`name|api_type`, with confidence scores 0.4 and 0.8. -/
def lowConfN : ApiRecord :=
  { name := "Gamma", api_type := "PIS", url := "https://a.example",
    source_page := "https://a.example/p1", confidence_score := 0.4 }

def highConfN : ApiRecord :=
  { name := "Gamma", api_type := "PIS", url := "https://b.example",
    source_page := "https://b.example/p2", confidence_score := 0.8 }

/-- Records sharing one `source_page` but with distinct dedup keys
(for claim C6). -/
def sharedPageA : ApiRecord :=
  { name := "One", api_type := "AIS", url := "https://a.example",
    source_page := "https://a.example/page", confidence_score := 0.5 }

def sharedPageB : ApiRecord :=
  { name := "Two", api_type := "AIS", url := "https://b.example",
    source_page := "https://a.example/page", confidence_score := 0.5 }

/-- Records with pairwise distinct source pages (witness data for the
amended claim C6). -/
def distinctA : ApiRecord :=
  { name := "D1", api_type := "AIS", url := "https://a.example",
    source_page := "https://a.example/one", confidence_score := 0.6 }

def distinctB : ApiRecord :=
  { name := "D2", api_type := "PIS", url := "https://a.example",
    source_page := "https://a.example/two", confidence_score := 0.7 }

/-! ## Concrete inputs instantiating the page-analysis claims -/

/-- A content probe that matches nothing. -/
def probeNone : String → Option String := fun _ => none

/-- A one-keyword scraper configuration. -/
def c10Config : Node.KeywordConfig := ⟨["psd2"], [], [], []⟩

def c10Url : String := "https://bank.example/x"

/-- Six keyword occurrences: total match count 6, confidence 6/20 = 0.3. -/
def c10Content : String := "psd2 psd2 psd2 psd2 psd2 psd2"

/-- A scraper configuration with one keyword per category. -/
def c7Config : Node.KeywordConfig := ⟨["psd2"], ["balance"], ["pisp"], ["piis"]⟩

/-- A page document whose text matches no taxonomy keyword. -/
def c7Doc : Client.PageDoc := ⟨"T", "Hello World", [], []⟩

/-! # Theorems -/

/-- Claim C5, counterexample: the basic engine's `deduplicateApis` retains
the FIRST record seen for a dedup key regardless of confidence.  With two
records sharing the key `url|api_type` and confidence scores 0.4 and 0.8,
in that input order, the output contains the 0.4 record and not the 0.8
record — contradicting the claim that the higher-confidence record is
always retained. -/
theorem claim_C5_counterexample :
    Client.deduplicateApis [lowConf, highConf] = [lowConf]
    ∧ highConf ∉ Client.deduplicateApis [lowConf, highConf] := by
  constructor
  · rfl
  · intro hmem
    rw [show Client.deduplicateApis [lowConf, highConf] = [lowConf] from rfl] at hmem
    simp only [List.mem_singleton] at hmem
    exact absurd (congrArg ApiRecord.name hmem) (by decide)

/-- Claim C5 (amended): in the enhanced client engine's `deduplicateApis`
(keyed on `name|api_type`) the record with the strictly higher
`confidence_score` is retained regardless of input order; the basic
engine's `deduplicateApis` instead keeps the first-seen record, and the
scraper's cross-run merge keyed on `source_page` is last-write-wins. -/
theorem claim_C5_theorem (a b : ApiRecord) (hk : Enhanced.dedupKey a = Enhanced.dedupKey b)
    (hc : a.confidence_score < b.confidence_score) :
    Enhanced.deduplicateApis [a, b] = [b] ∧ Enhanced.deduplicateApis [b, a] = [b] := by
  have hnlt : ¬ b.confidence_score < a.confidence_score := lt_asymm hc
  constructor
  · simp [Enhanced.deduplicateApis, Enhanced.dedupGo, mapGet, mapSet, ← hk, hc]
  · simp [Enhanced.deduplicateApis, Enhanced.dedupGo, mapGet, mapSet, hk, hnlt]

/-- Witness for the amended claim C5, at two records sharing the enhanced
dedup key with confidence scores 0.4 < 0.8. -/
theorem claim_C5_witness :
    Enhanced.deduplicateApis [lowConfN, highConfN] = [highConfN]
    ∧ Enhanced.deduplicateApis [highConfN, lowConfN] = [highConfN] :=
  claim_C5_theorem lowConfN highConfN rfl (by norm_num [lowConfN, highConfN])

/-! ## Merge lemmas (claim C6) -/

theorem mapSet_fresh (m : List (String × ApiRecord)) (k : String) (v : ApiRecord)
    (h : ∀ p ∈ m, p.1 ≠ k) : mapSet m k v = m ++ [(k, v)] := by
  unfold mapSet
  rw [if_neg]
  simp only [List.any_eq_true, decide_eq_true_eq, not_exists]
  intro p
  exact fun hmem => h p hmem.1 hmem.2

theorem map_replace_self (m : List (String × ApiRecord)) (k : String) (v : ApiRecord)
    (hmem : (k, v) ∈ m) (hnd : (m.map Prod.fst).Nodup) :
    m.map (fun p => if p.1 = k then (k, v) else p) = m := by
  induction m with
  | nil => simp at hmem
  | cons p rest ih =>
    simp only [List.map_cons, List.nodup_cons, List.mem_map] at hnd
    rcases List.mem_cons.mp hmem with hp | hrest
    · subst hp
      simp only [List.map_cons, if_pos rfl]
      congr 1
      have hne : ∀ q ∈ rest, q.1 ≠ k := by
        intro q hq heq
        exact hnd.1 ⟨q, hq, heq⟩
      calc rest.map (fun p => if p.1 = k then (k, v) else p)
          = rest.map id := List.map_congr_left (fun q hq => by simp [if_neg (hne q hq)])
        _ = rest := List.map_id rest
    · have hpk : p.1 ≠ k := fun heq => hnd.1 ⟨(k, v), hrest, heq.symm⟩
      simp only [List.map_cons, if_neg hpk]
      rw [ih hrest hnd.2]

theorem mapSet_mem_self (m : List (String × ApiRecord)) (k : String) (v : ApiRecord)
    (hmem : (k, v) ∈ m) (hnd : (m.map Prod.fst).Nodup) : mapSet m k v = m := by
  unfold mapSet
  rw [if_pos, map_replace_self m k v hmem hnd]
  simp only [List.any_eq_true, decide_eq_true_eq]
  exact ⟨(k, v), hmem, rfl⟩

theorem insertAll_fresh (X : List ApiRecord) :
    ∀ m : List (String × ApiRecord),
      (∀ a ∈ X, a.source_page ∉ m.map Prod.fst) →
      (X.map (fun a => a.source_page)).Nodup →
      Node.insertAllBySource m X = m ++ X.map (fun a => (a.source_page, a)) := by
  induction X with
  | nil => intro m _ _; simp [Node.insertAllBySource]
  | cons a rest ih =>
    intro m hfresh hnd
    simp only [List.map_cons, List.nodup_cons] at hnd
    have hstep : mapSet m a.source_page a = m ++ [(a.source_page, a)] := by
      apply mapSet_fresh
      intro p hp heq
      exact hfresh a (List.mem_cons_self a rest) (heq ▸ List.mem_map_of_mem Prod.fst hp)
    simp only [Node.insertAllBySource, hstep]
    rw [ih (m ++ [(a.source_page, a)]) ?_ hnd.2]
    · simp
    · intro b hb
      simp only [List.map_append, List.mem_append, List.map_cons]
      rintro (hm | hsingle)
      · exact hfresh b (List.mem_cons_of_mem a hb) hm
      · simp only [List.map_cons, List.map_nil, List.mem_singleton] at hsingle
        exact hnd.1 (hsingle ▸ List.mem_map_of_mem (fun a => a.source_page) hb)

theorem insertAll_id (X : List ApiRecord) (m : List (String × ApiRecord))
    (hmem : ∀ a ∈ X, (a.source_page, a) ∈ m) (hnd : (m.map Prod.fst).Nodup) :
    Node.insertAllBySource m X = m := by
  induction X with
  | nil => simp [Node.insertAllBySource]
  | cons a rest ih =>
    simp only [Node.insertAllBySource,
      mapSet_mem_self m _ _ (hmem a (List.mem_cons_self a rest)) hnd]
    exact ih (fun b hb => hmem b (List.mem_cons_of_mem a hb))

theorem mergeApis_self (X : List ApiRecord)
    (hnd : (X.map (fun a => a.source_page)).Nodup) : Node.mergeApis X X = X := by
  unfold Node.mergeApis
  rw [insertAll_fresh X [] (by simp) hnd]
  simp only [List.nil_append]
  rw [insertAll_id X _ (fun a ha => List.mem_map_of_mem (fun a => (a.source_page, a)) ha)
    (by simpa [List.map_map] using hnd)]
  rw [List.map_map]
  exact (List.map_congr_left (fun a _ => rfl)).trans (List.map_id X)

/-- Claim C6, counterexample: with `X` containing two records that share
one `source_page` but have distinct dedup keys, the `source_page`-keyed
self-merge collapses them to one record, so
`dedup (merge X X) ≠ dedup X` for both deduplication variants. -/
theorem claim_C6_counterexample :
    Client.deduplicateApis
        (Node.mergeApis [sharedPageA, sharedPageB] [sharedPageA, sharedPageB])
      ≠ Client.deduplicateApis [sharedPageA, sharedPageB]
    ∧ Enhanced.deduplicateApis
        (Node.mergeApis [sharedPageA, sharedPageB] [sharedPageA, sharedPageB])
      ≠ Enhanced.deduplicateApis [sharedPageA, sharedPageB] := by
  have h1 : Client.deduplicateApis
      (Node.mergeApis [sharedPageA, sharedPageB] [sharedPageA, sharedPageB])
      = [sharedPageB] := rfl
  have h2 : Client.deduplicateApis [sharedPageA, sharedPageB]
      = [sharedPageA, sharedPageB] := rfl
  have h3 : Enhanced.deduplicateApis
      (Node.mergeApis [sharedPageA, sharedPageB] [sharedPageA, sharedPageB])
      = [sharedPageB] := rfl
  have h4 : Enhanced.deduplicateApis [sharedPageA, sharedPageB]
      = [sharedPageA, sharedPageB] := rfl
  constructor
  · intro h
    rw [h1, h2] at h
    have hlen := congrArg List.length h
    simp at hlen
  · intro h
    rw [h3, h4] at h
    have hlen := congrArg List.length h
    simp at hlen

/-- Claim C6 (amended): merging a dataset with itself and deduplicating
equals deduplicating the dataset alone PROVIDED no two records of the
dataset share a `source_page` (the merge key); in that case the self-merge
is the identity, and the equation holds for both dedup variants.  Without
that proviso the `source_page`-keyed merge can collapse records that
deduplication would keep (see the counterexample). -/
theorem claim_C6_theorem (X : List ApiRecord)
    (hnd : (X.map (fun a => a.source_page)).Nodup) :
    Node.mergeApis X X = X
    ∧ Client.deduplicateApis (Node.mergeApis X X) = Client.deduplicateApis X
    ∧ Enhanced.deduplicateApis (Node.mergeApis X X) = Enhanced.deduplicateApis X := by
  have h := mergeApis_self X hnd
  exact ⟨h, by rw [h], by rw [h]⟩

/-- Witness for the amended claim C6 at a two-record dataset with distinct
source pages. -/
theorem claim_C6_witness :
    Node.mergeApis [distinctA, distinctB] [distinctA, distinctB] = [distinctA, distinctB]
    ∧ Client.deduplicateApis (Node.mergeApis [distinctA, distinctB] [distinctA, distinctB])
      = Client.deduplicateApis [distinctA, distinctB]
    ∧ Enhanced.deduplicateApis (Node.mergeApis [distinctA, distinctB] [distinctA, distinctB])
      = Enhanced.deduplicateApis [distinctA, distinctB] :=
  claim_C6_theorem [distinctA, distinctB] (by decide)

/-! ## Relevance-score lemmas (claims C4 and C7) -/

theorem takeWhile_append_of_all {p : Char → Bool} (l1 l2 : List Char)
    (h1 : ∀ c ∈ l1, p c = true) : (l1 ++ l2).takeWhile p = l1 ++ l2.takeWhile p := by
  induction l1 with
  | nil => simp
  | cons c cs ih =>
    simp only [List.cons_append, List.takeWhile_cons, h1 c (List.mem_cons_self c cs), if_true]
    rw [ih (fun d hd => h1 d (List.mem_cons_of_mem c hd))]

/-- The category prefix survives `split(":")[0]` on a tag `cat ++ ":" ++ kw`
when the category name has no colon. -/
theorem firstComp_tag (cat kw : String) (h : ':' ∉ cat.data) :
    firstComp ':' (cat ++ ":" ++ kw) = cat := by
  unfold firstComp
  have hdata : (cat ++ ":" ++ kw).data = cat.data ++ (':' :: kw.data) := by
    show (cat.data ++ [':']) ++ kw.data = _
    rw [List.append_assoc]
    rfl
  rw [hdata, takeWhile_append_of_all]
  · have hstop : (':' :: kw.data).takeWhile (fun c => decide ¬(c = ':')) = [] := by
      simp [List.takeWhile_cons]
    rw [hstop, List.append_nil]
  · intro c hc
    simp only [decide_eq_true_eq]
    exact fun heq => h (heq ▸ hc)

/-- `findKeywords` decomposes into the five categories' tagged keyword
lists, in taxonomy order. -/
theorem findKeywords_eq (t : String) :
    Client.findKeywords t
      = Client.tagged "general" Client.generalKeywords t
        ++ (Client.tagged "ais" Client.aisKeywords t
        ++ (Client.tagged "pis" Client.pisKeywords t
        ++ (Client.tagged "caf" Client.cafKeywords t
        ++ Client.tagged "technical" Client.technicalKeywords t))) := by
  simp [Client.findKeywords, Client.PSD2_KEYWORDS, Client.tagged,
    List.flatMap_cons, List.flatMap_nil]

/-- Membership of a category name among the split tags of one tagged
category list is equivalent to that category having a keyword match. -/
theorem mem_map_firstComp_tagged (cat : String) (l : List String) (t x : String)
    (h : ':' ∉ cat.data) :
    (x ∈ (Client.tagged cat l t).map (firstComp ':'))
      ↔ (x = cat ∧ Client.catPresent t l = true) := by
  have hmap : (Client.tagged cat l t).map (firstComp ':')
      = (l.filter (fun kw => containsStr t (lowerStr kw))).map (fun _ => cat) := by
    simp only [Client.tagged, List.map_map]
    exact List.map_congr_left (fun a _ => firstComp_tag cat a h)
  rw [hmap]
  simp only [List.mem_map, List.mem_filter, Client.catPresent, List.any_eq_true]
  constructor
  · rintro ⟨a, ⟨ha, hpa⟩, heq⟩
    exact ⟨heq.symm, ⟨a, ha, hpa⟩⟩
  · rintro ⟨rfl, a, ha, hpa⟩
    exact ⟨a, ⟨ha, hpa⟩, rfl⟩

/-- The source's relevance computation over the tagged keyword list equals
the claim-side formula stated on category presence (claim C4). -/
theorem calculateRelevance_findKeywords (t url : String) :
    Client.calculateRelevance (Client.findKeywords t) url
      = Client.relevanceClaim t url := by
  have h1 := fun x => mem_map_firstComp_tagged "general" Client.generalKeywords t x (by decide)
  have h2 := fun x => mem_map_firstComp_tagged "ais" Client.aisKeywords t x (by decide)
  have h3 := fun x => mem_map_firstComp_tagged "pis" Client.pisKeywords t x (by decide)
  have h4 := fun x => mem_map_firstComp_tagged "caf" Client.cafKeywords t x (by decide)
  have h5 := fun x => mem_map_firstComp_tagged "technical" Client.technicalKeywords t x (by decide)
  unfold Client.calculateRelevance Client.relevanceClaim
  rw [findKeywords_eq]
  simp only [List.map_append, List.mem_append, h1, h2, h3, h4, h5]
  simp only [String.reduceEq, false_and, true_and, or_false, false_or, and_true, and_false]
  rw [max_eq_left]
  split_ifs <;> norm_num

theorem calculateRelevance_nonneg (kws : List String) (url : String) :
    0 ≤ Client.calculateRelevance kws url := by
  unfold Client.calculateRelevance
  apply le_min _ (by norm_num)
  split_ifs <;> norm_num

theorem calculateRelevance_le_one (kws : List String) (url : String) :
    Client.calculateRelevance kws url ≤ 1 := by
  unfold Client.calculateRelevance
  exact min_le_right _ _

/-- With no keyword found, the score is at most the URL bonus, hence at
most 0.2 (helper for claim C7). -/
theorem calculateRelevance_nil_le (url : String) :
    Client.calculateRelevance [] url ≤ 1 / 5 := by
  unfold Client.calculateRelevance
  simp only [List.map_nil, List.not_mem_nil, if_false, zero_add]
  apply min_le_of_left_le
  split_ifs <;> norm_num

/-- Claim C4: for every page, the client-crawl relevance score equals the
claim-side formula `relevanceClaim` (fixed weight per keyword category
with at least one match — general 0.30, ais 0.25, pis 0.25, caf 0.20,
technical 0.20 — plus 0.20 for an API-looking URL, clamped to [0,1]), the
score lies in [0,1], and the page is marked `isApiRelated` exactly when
the score is strictly greater than 0.2. -/
theorem claim_C4_theorem (doc : Client.PageDoc) (url baseDomain : String) :
    (Client.analyzePage doc url baseDomain).relevanceScore
        = Client.relevanceClaim (lowerStr doc.bodyText) url
    ∧ 0 ≤ (Client.analyzePage doc url baseDomain).relevanceScore
    ∧ (Client.analyzePage doc url baseDomain).relevanceScore ≤ 1
    ∧ ((Client.analyzePage doc url baseDomain).isApiRelated = true
        ↔ 1 / 5 < (Client.analyzePage doc url baseDomain).relevanceScore) := by
  have hscore : (Client.analyzePage doc url baseDomain).relevanceScore
      = Client.calculateRelevance (Client.findKeywords (lowerStr doc.bodyText)) url := rfl
  refine ⟨?_, ?_, ?_, ?_⟩
  · rw [hscore, calculateRelevance_findKeywords]
  · rw [hscore]; exact calculateRelevance_nonneg _ _
  · rw [hscore]; exact calculateRelevance_le_one _ _
  · show decide ((1 : ℚ) / 5
        < Client.calculateRelevance (Client.findKeywords (lowerStr doc.bodyText)) url) = true ↔ _
    rw [hscore]
    exact decide_eq_true_iff

/-- Claim C7: a page whose text matches zero taxonomy keywords is marked
not API-related by the client analysis (whatever its URL and title), such
a page contributes no ApiRecords to the client crawl state, and the
scraper's `analyzePageContent` likewise produces zero records when the
total keyword match count is zero. -/
theorem claim_C7_theorem :
    (∀ (doc : Client.PageDoc) (url baseDomain : String),
        Client.findKeywords (lowerStr doc.bodyText) = [] →
        (Client.analyzePage doc url baseDomain).isApiRelated = false)
    ∧ (∀ (maxDepth : Nat) (baseDomain : String) (e : CrawlEntry) (doc : Client.PageDoc)
          (s : Client.ScanState),
        Client.findKeywords (lowerStr doc.bodyText) = [] →
        (Client.processFetched maxDepth baseDomain e doc s).discoveredApis
          = s.discoveredApis)
    ∧ (∀ (kws : Node.KeywordConfig) (dm dh sh : String → Option String)
          (url content title : String),
        (Node.analyzeCounts kws (lowerStr content)).1.1
          + (Node.analyzeCounts kws (lowerStr content)).1.2.1
          + (Node.analyzeCounts kws (lowerStr content)).1.2.2.1
          + (Node.analyzeCounts kws (lowerStr content)).1.2.2.2 = 0 →
        Node.analyzePageContent kws dm dh sh url content title = []) := by
  have hrel : ∀ (doc : Client.PageDoc) (url baseDomain : String),
      Client.findKeywords (lowerStr doc.bodyText) = [] →
      (Client.analyzePage doc url baseDomain).isApiRelated = false := by
    intro doc url baseDomain hkw
    show decide ((1 : ℚ) / 5
        < Client.calculateRelevance (Client.findKeywords (lowerStr doc.bodyText)) url) = false
    rw [hkw, decide_eq_false_iff_not]
    exact not_lt_of_le (calculateRelevance_nil_le url)
  refine ⟨hrel, ?_, ?_⟩
  · intro maxDepth baseDomain e doc s hkw
    have hapi : (Client.analyzePage doc e.url baseDomain).isApiRelated = false :=
      hrel doc e.url baseDomain hkw
    unfold Client.processFetched
    dsimp only
    rw [hapi]
    simp only [Bool.false_eq_true, if_false]
    split <;> rfl
  · intro kws dm dh sh url content title htot
    unfold Node.analyzePageContent
    simp only [htot, if_pos rfl]
    rfl

/-- Witness for claim C7: a page with text "Hello World" matches zero
taxonomy keywords; it is marked not API-related, contributes no records to
the client crawl state, and yields zero records from the scraper
analysis. -/
theorem claim_C7_witness :
    Client.findKeywords (lowerStr "Hello World") = []
    ∧ (Client.analyzePage c7Doc "https://bank.example/api" "https://bank.example").isApiRelated
        = false
    ∧ (Client.processFetched 2 "https://bank.example" ⟨"https://bank.example/api", 0⟩ c7Doc
        (Client.initState "https://bank.example/api")).discoveredApis
        = (Client.initState "https://bank.example/api").discoveredApis
    ∧ Node.analyzePageContent c7Config probeNone probeNone probeNone
        "https://bank.example/api" "Hello World" "T" = [] := by
  have hkw : Client.findKeywords (lowerStr "Hello World") = [] := by decide
  have hkw2 : Client.findKeywords (lowerStr c7Doc.bodyText) = [] := hkw
  have hcnt : (Node.analyzeCounts c7Config (lowerStr "Hello World")).1.1
      + (Node.analyzeCounts c7Config (lowerStr "Hello World")).1.2.1
      + (Node.analyzeCounts c7Config (lowerStr "Hello World")).1.2.2.1
      + (Node.analyzeCounts c7Config (lowerStr "Hello World")).1.2.2.2 = 0 := by decide
  exact ⟨hkw, claim_C7_theorem.1 c7Doc _ _ hkw2,
    claim_C7_theorem.2.1 2 "https://bank.example" ⟨"https://bank.example/api", 0⟩ c7Doc _ hkw2,
    claim_C7_theorem.2.2 c7Config probeNone probeNone probeNone _ _ "T" hcnt⟩

/-- Claim C10: every ApiRecord produced by the scraper's page analysis has
at most 10 entries in `keywords_found` — the matched-keyword list is
truncated to its first 10 elements before being stored. -/
theorem claim_C10_theorem (kws : Node.KeywordConfig) (dm dh sh : String → Option String)
    (url content title : String) (r : ApiRecord)
    (hr : r ∈ Node.analyzePageContent kws dm dh sh url content title) :
    r.keywords_found.length ≤ 10 := by
  unfold Node.analyzePageContent at hr
  dsimp only at hr
  split at hr
  · simp at hr
  · simp only [List.mem_ite_nil_right, List.mem_singleton] at hr
    obtain ⟨-, rfl⟩ := hr
    simp only [List.length_take]
    exact min_le_left _ _

/-- Witness for claim C10: a concrete scraper analysis that produces a
record (six keyword matches, confidence exactly the 0.3 threshold), whose
`keywords_found` list has at most 10 entries. -/
theorem claim_C10_witness :
    ((Node.analyzePageContent c10Config probeNone probeNone probeNone c10Url c10Content
        "").headD lowConf)
      ∈ Node.analyzePageContent c10Config probeNone probeNone probeNone c10Url c10Content ""
    ∧ (((Node.analyzePageContent c10Config probeNone probeNone probeNone c10Url c10Content
        "").headD lowConf).keywords_found.length ≤ 10) := by
  have hcounts : Node.analyzeCounts c10Config (lowerStr c10Content)
      = ((6, 0, 0, 0), ["psd2"]) := by decide
  have hurl : Node.isApiRelatedUrl c10Url = false := by decide
  have ht1 : containsStr (lowerStr "") "api" = false := by decide
  have ht2 : containsStr (lowerStr "") "psd2" = false := by decide
  have ht3 : containsStr (lowerStr "") "open banking" = false := by decide
  have hne : Node.analyzePageContent c10Config probeNone probeNone probeNone c10Url c10Content ""
      ≠ [] := by
    unfold Node.analyzePageContent
    dsimp only
    rw [hcounts]
    simp only [hurl, ht1, ht2, ht3, Bool.false_eq_true, false_or, if_false]
    norm_num [le_min_iff]
  have hmem : ((Node.analyzePageContent c10Config probeNone probeNone probeNone c10Url c10Content
      "").headD lowConf)
      ∈ Node.analyzePageContent c10Config probeNone probeNone probeNone c10Url c10Content "" := by
    obtain ⟨a, rest, hl⟩ := List.exists_cons_of_ne_nil hne
    rw [hl]
    simp
  exact ⟨hmem, claim_C10_theorem c10Config probeNone probeNone probeNone c10Url c10Content ""
    _ hmem⟩

/-! ## Fragment-freeness lemmas (claim C8) -/

theorem splitFirstChar_fst_not_mem (sep : Char) (l : List Char) :
    sep ∉ (splitFirstChar sep l).1 := by
  induction l with
  | nil => simp [splitFirstChar]
  | cons c rest ih =>
    by_cases hc : c = sep
    · simp [splitFirstChar, hc]
    · rcases hsp : splitFirstChar sep rest with ⟨pre, post⟩
      rw [hsp] at ih
      simp only [splitFirstChar, if_neg hc, hsp, List.mem_cons, not_or]
      exact ⟨fun h => hc h.symm, ih⟩

theorem splitFirstChar_snd_subset (sep : Char) (l : List Char) (post : List Char)
    (h : (splitFirstChar sep l).2 = some post) : ∀ x ∈ post, x ∈ l := by
  induction l generalizing post with
  | nil => simp [splitFirstChar] at h
  | cons c rest ih =>
    by_cases hc : c = sep
    · simp only [splitFirstChar, if_pos hc] at h
      cases h
      exact fun x hx => List.mem_cons_of_mem c hx
    · rcases hsp : splitFirstChar sep rest with ⟨pre, post2⟩
      simp only [splitFirstChar, if_neg hc, hsp] at h
      intro x hx
      exact List.mem_cons_of_mem c (ih post (by rw [hsp]; exact h) x hx)

theorem parseAbs_no_hash (s : String) (u : UrlM) (h : parseAbs s = some u) :
    '#' ∉ u.scheme.data ∧ '#' ∉ u.host.data ∧ '#' ∉ u.path.data := by
  unfold parseAbs at h
  rcases hsp : splitFirstSeq [':', '/', '/'] s.data with _ | ⟨schemeCs, rest⟩ <;> rw [hsp] at h
  · simp at h
  · dsimp only at h
    split at h
    · simp at h
    · rename_i hscheme
      rcases hbh : splitFirstChar '#' rest with ⟨beforeHash, fragPart⟩
      rw [hbh] at h
      dsimp only at h
      split at h
      · simp at h
      · simp only [Option.some.injEq] at h
        subst h
        have hhash : '#' ∉ beforeHash := by
          have := splitFirstChar_fst_not_mem '#' rest
          rwa [hbh] at this
        refine ⟨?_, ?_, ?_⟩
        · intro hmem
          rw [not_or, not_not, not_not] at hscheme
          have := List.all_eq_true.mp hscheme.2 '#' hmem
          simp [isSchemeChar] at this
        · intro hmem
          exact hhash ((List.takeWhile_sublist _).subset hmem)
        · intro hmem
          exact hhash (List.drop_subset _ _ hmem)

theorem dirOf_no_hash (path : String) (h : '#' ∉ path.data) : '#' ∉ (dirOf path).data := by
  unfold dirOf
  dsimp only
  rcases hsp : splitFirstChar '/' path.data.reverse with ⟨pre, post⟩
  rcases post with _ | keep
  · dsimp only
    decide
  · intro hmem
    have hmem2 : '#' ∈ ('/' :: keep).reverse := hmem
    rw [List.reverse_cons] at hmem2
    have hk : '#' ∈ keep := by
      rcases List.mem_append.mp hmem2 with h1 | h2
      · exact List.mem_reverse.mp h1
      · simp at h2
    have hrev : '#' ∈ path.data.reverse :=
      splitFirstChar_snd_subset '/' path.data.reverse keep (by rw [hsp]) '#' hk
    exact h (List.mem_reverse.mp hrev)

theorem resolveUrl_no_hash (href base : String) (u : UrlM) (h : resolveUrl href base = some u) :
    '#' ∉ u.scheme.data ∧ '#' ∉ u.host.data ∧ '#' ∉ u.path.data := by
  unfold resolveUrl at h
  rcases habs : parseAbs href with _ | v <;> rw [habs] at h
  · rcases hb : parseAbs base with _ | b <;> rw [hb] at h
    · simp at h
    · obtain ⟨hbs, hbh, hbp⟩ := parseAbs_no_hash base b hb
      try dsimp only at h
      rcases hpf : splitFirstChar '#' href.data with ⟨p, fragPart⟩
      rw [hpf] at h
      try dsimp only at h
      have hp : '#' ∉ p := by
        have hfc := splitFirstChar_fst_not_mem '#' href.data
        rwa [hpf] at hfc
      split at h
      · cases h; exact ⟨hbs, hbh, hbp⟩
      · split at h
        · cases h; exact ⟨hbs, hbh, hbp⟩
        · split at h
          · cases h; exact ⟨hbs, hbh, hp⟩
          · cases h
            refine ⟨hbs, hbh, ?_⟩
            intro hmem
            have hmem2 : '#' ∈ (dirOf b.path).data ++ p := hmem
            rcases List.mem_append.mp hmem2 with h1 | h2
            · exact dirOf_no_hash b.path hbp h1
            · exact hp h2
  · cases h
    exact parseAbs_no_hash href _ habs

theorem containsStr_hash_false (s : String) (h : '#' ∉ s.data) : containsStr s "#" = false := by
  unfold containsStr
  simp only [decide_eq_false_iff_not]
  intro hinf
  exact h (hinf.subset (by decide))

theorem hrefOf_stripped_no_hash (u : UrlM) (h1 : '#' ∉ u.scheme.data) (h2 : '#' ∉ u.host.data)
    (h3 : '#' ∉ u.path.data) : containsStr (hrefOf { u with frag := "" }) "#" = false := by
  apply containsStr_hash_false
  show '#' ∉ (u.scheme ++ "://" ++ u.host ++ u.path
    ++ (if ("" : String) = "" then "" else "#" ++ "")).data
  rw [if_pos rfl]
  intro hmem
  simp only [String.data_append, List.mem_append] at hmem
  rcases hmem with (((ha | hb) | hc) | hd) | he
  · exact h1 ha
  · exact absurd hb (by decide)
  · exact h2 hc
  · exact h3 hd
  · simp at he

/-- Invariant preservation under `List.foldl`: if the step function only
adds elements satisfying `P`, every element of the result satisfies `P`
when every element of the initial accumulator does. -/
theorem foldl_preserve {α β : Type} (P : β → Prop) (step : List β → α → List β)
    (hstep : ∀ acc a, (∀ x ∈ acc, P x) → ∀ x ∈ step acc a, P x)
    (l : List α) : ∀ acc : List β, (∀ x ∈ acc, P x) → ∀ x ∈ l.foldl step acc, P x := by
  induction l with
  | nil => intro acc hacc; simpa using hacc
  | cons a rest ih =>
    intro acc hacc
    simp only [List.foldl_cons]
    exact ih _ (hstep acc a hacc)

theorem client_extractLinks_no_hash (anchors : List Client.Anchor)
    (baseDomain currentUrl : String) :
    ∀ link ∈ Client.extractLinks anchors baseDomain currentUrl,
      containsStr link "#" = false := by
  unfold Client.extractLinks
  dsimp only
  intro link hlink
  refine foldl_preserve (fun y => containsStr y "#" = false) _ ?_ anchors [] (by simp) link hlink
  intro acc a hacc x hx
  try dsimp only at hx
  split at hx
  · exact hacc x hx
  · rcases hres : resolveUrl a.href currentUrl with _ | u <;> rw [hres] at hx
    · exact hacc x hx
    · try dsimp only at hx
      split at hx
      · split at hx
        · exact hacc x hx
        · rcases List.mem_append.mp hx with hmem | hmem
          · exact hacc x hmem
          · simp only [List.mem_singleton] at hmem
            subst hmem
            obtain ⟨hs, hh, hp⟩ := resolveUrl_no_hash a.href currentUrl u hres
            exact hrefOf_stripped_no_hash u hs hh hp
      · exact hacc x hx

theorem node_extractLinks_no_hash (baseUrl content : String) :
    ∀ link ∈ Node.extractLinks baseUrl content, containsStr link "#" = false := by
  unfold Node.extractLinks
  dsimp only
  intro link hlink
  refine foldl_preserve (fun y => containsStr y "#" = false) _ ?_ (Node.scanHrefs content) [] (by simp) link hlink
  intro acc m hacc x hx
  try dsimp only at hx
  rcases hres : resolveUrl m baseUrl with _ | u <;> rw [hres] at hx
  · exact hacc x hx
  · try dsimp only at hx
    split at hx
    · rename_i hcond
      split at hx
      · exact hacc x hx
      · rcases List.mem_append.mp hx with hmem | hmem
        · exact hacc x hmem
        · simp only [List.mem_singleton] at hmem
          subst hmem
          simpa using hcond.2.1
    · exact hacc x hx

/-- Claim C8, counterexample: the scraper's `extractLinks` does NOT strip
the fragment of a discovered link — its href regex (`[^"'#]+` followed by
a closing quote) fails to match an href containing `#`, so the link
`https://bank.example/docs/overview#section` is dropped entirely: the
stripped URL is not in the result (which is empty), contradicting the
claim that the link "is added as https://bank.example/docs/overview". -/
theorem claim_C8_counterexample :
    Node.extractLinks "https://bank.example/"
        "<a href=\"https://bank.example/docs/overview#section\">go</a>" = []
    ∧ "https://bank.example/docs/overview" ∉ Node.extractLinks "https://bank.example/"
        "<a href=\"https://bank.example/docs/overview#section\">go</a>" := by
  constructor
  · rfl
  · intro hmem
    rw [show Node.extractLinks "https://bank.example/"
        "<a href=\"https://bank.example/docs/overview#section\">go</a>" = [] from rfl] at hmem
    simp at hmem

/-- Claim C8 (amended): the basic client engine's `extractLinks` strips
URL fragments before a link reaches the frontier or visited set — the
link `https://bank.example/docs/overview#section` is added as
`https://bank.example/docs/overview` — and in BOTH implementations no URL
returned by `extractLinks` contains a fragment; the scraper's
`extractLinks`, however, drops a fragment-bearing href entirely (its
capture regex excludes `#`) instead of stripping it. -/
theorem claim_C8_theorem :
    Client.extractLinks [⟨"https://bank.example/docs/overview#section", "overview"⟩]
        "https://bank.example" "https://bank.example/"
      = ["https://bank.example/docs/overview"]
    ∧ (∀ (anchors : List Client.Anchor) (baseDomain currentUrl link : String),
        link ∈ Client.extractLinks anchors baseDomain currentUrl →
        containsStr link "#" = false)
    ∧ (∀ baseUrl content link : String,
        link ∈ Node.extractLinks baseUrl content →
        containsStr link "#" = false) :=
  ⟨rfl,
   fun anchors baseDomain currentUrl link hmem =>
     client_extractLinks_no_hash anchors baseDomain currentUrl link hmem,
   fun baseUrl content link hmem =>
     node_extractLinks_no_hash baseUrl content link hmem⟩

/-- Witness for the amended claim C8: concrete links returned by both
extractors, each fragment-free. -/
theorem claim_C8_witness :
    ("https://bank.example/docs/overview"
        ∈ Client.extractLinks [⟨"https://bank.example/docs/overview#section", "overview"⟩]
            "https://bank.example" "https://bank.example/")
    ∧ containsStr "https://bank.example/docs/overview" "#" = false
    ∧ ("https://x.example/a"
        ∈ Node.extractLinks "https://x.example/" "<a href=\"https://x.example/a\">x</a>")
    ∧ containsStr "https://x.example/a" "#" = false := by
  have hm1 : "https://bank.example/docs/overview"
      ∈ Client.extractLinks [⟨"https://bank.example/docs/overview#section", "overview"⟩]
          "https://bank.example" "https://bank.example/" := by decide
  have hm2 : "https://x.example/a"
      ∈ Node.extractLinks "https://x.example/" "<a href=\"https://x.example/a\">x</a>" := by decide
  exact ⟨hm1, claim_C8_theorem.2.1 _ _ _ _ hm1, hm2, claim_C8_theorem.2.2 _ _ _ hm2⟩

/-! ## Crawl-loop step equations and invariants (claims C1, C2, C3) -/

theorem processFetched_pagesScanned (maxDepth : Nat) (baseDomain : String) (e : CrawlEntry)
    (doc : Client.PageDoc) (s : Client.ScanState) :
    (Client.processFetched maxDepth baseDomain e doc s).pagesScanned = s.pagesScanned := by
  unfold Client.processFetched
  dsimp only
  split <;> split <;> rfl

theorem processFetched_visited (maxDepth : Nat) (baseDomain : String) (e : CrawlEntry)
    (doc : Client.PageDoc) (s : Client.ScanState) :
    (Client.processFetched maxDepth baseDomain e doc s).visited = s.visited := by
  unfold Client.processFetched
  dsimp only
  split <;> split <;> rfl

theorem processFetched_processed (maxDepth : Nat) (baseDomain : String) (e : CrawlEntry)
    (doc : Client.PageDoc) (s : Client.ScanState) :
    (Client.processFetched maxDepth baseDomain e doc s).processed = s.processed := by
  unfold Client.processFetched
  dsimp only
  split <;> split <;> rfl

theorem scanLoop_nil (fetch : String → Option Client.PageDoc) (maxDepth maxPages : Nat)
    (baseDomain : String) (s : Client.ScanState) (hv : s.toVisit = []) :
    Client.scanLoop fetch maxDepth maxPages baseDomain s = s := by
  rw [Client.scanLoop.eq_def]
  split
  · rfl
  · rename_i e rest heq
    rw [hv] at heq
    simp at heq

theorem scanLoop_stop (fetch : String → Option Client.PageDoc) (maxDepth maxPages : Nat)
    (baseDomain : String) (s : Client.ScanState) (hp : ¬ s.pagesScanned < maxPages) :
    Client.scanLoop fetch maxDepth maxPages baseDomain s = s := by
  rw [Client.scanLoop.eq_def]
  split
  · rfl
  · rw [dif_neg hp]

theorem scanLoop_drop (fetch : String → Option Client.PageDoc) (maxDepth maxPages : Nat)
    (baseDomain : String) (s : Client.ScanState) (e : CrawlEntry) (rest : List CrawlEntry)
    (hv : s.toVisit = e :: rest) (hp : s.pagesScanned < maxPages)
    (hg : e.url ∈ s.visited ∨ maxDepth < e.depth) :
    Client.scanLoop fetch maxDepth maxPages baseDomain s
      = Client.scanLoop fetch maxDepth maxPages baseDomain { s with toVisit := rest } := by
  rw [Client.scanLoop.eq_def]
  split
  · rename_i heq
    rw [hv] at heq
    simp at heq
  · rename_i e2 rest2 heq
    rw [hv] at heq
    injection heq with he hrest
    subst he
    subst hrest
    rw [dif_pos hp, if_pos hg]

theorem scanLoop_fetchNone (fetch : String → Option Client.PageDoc) (maxDepth maxPages : Nat)
    (baseDomain : String) (s : Client.ScanState) (e : CrawlEntry) (rest : List CrawlEntry)
    (hv : s.toVisit = e :: rest) (hp : s.pagesScanned < maxPages)
    (hg : ¬ (e.url ∈ s.visited ∨ maxDepth < e.depth)) (hf : fetch e.url = none) :
    Client.scanLoop fetch maxDepth maxPages baseDomain s
      = Client.scanLoop fetch maxDepth maxPages baseDomain
          { s with visited := e.url :: s.visited, toVisit := rest,
                   pagesScanned := s.pagesScanned + 1, processed := e :: s.processed } := by
  rw [Client.scanLoop.eq_def]
  split
  · rename_i heq
    rw [hv] at heq
    simp at heq
  · rename_i e2 rest2 heq
    rw [hv] at heq
    injection heq with he hrest
    subst he
    subst hrest
    rw [dif_pos hp, if_neg hg]
    dsimp only
    rw [hf]

theorem scanLoop_fetchSome (fetch : String → Option Client.PageDoc) (maxDepth maxPages : Nat)
    (baseDomain : String) (s : Client.ScanState) (e : CrawlEntry) (rest : List CrawlEntry)
    (doc : Client.PageDoc) (hv : s.toVisit = e :: rest) (hp : s.pagesScanned < maxPages)
    (hg : ¬ (e.url ∈ s.visited ∨ maxDepth < e.depth)) (hf : fetch e.url = some doc) :
    Client.scanLoop fetch maxDepth maxPages baseDomain s
      = Client.scanLoop fetch maxDepth maxPages baseDomain
          (Client.processFetched maxDepth baseDomain e doc
            { s with visited := e.url :: s.visited, toVisit := rest,
                     pagesScanned := s.pagesScanned + 1, processed := e :: s.processed }) := by
  rw [Client.scanLoop.eq_def]
  split
  · rename_i heq
    rw [hv] at heq
    simp at heq
  · rename_i e2 rest2 heq
    rw [hv] at heq
    injection heq with he hrest
    subst he
    subst hrest
    rw [dif_pos hp, if_neg hg]
    dsimp only
    rw [hf]

theorem processLoaded_pagesScanned (kws : Node.KeywordConfig)
    (dm dh sh : String → Option String) (maxDepth : Nat) (e : CrawlEntry)
    (ct : String × String) (s : Node.NodeState) :
    (Node.processLoaded kws dm dh sh maxDepth e ct s).pagesScanned = s.pagesScanned + 1 := by
  unfold Node.processLoaded
  dsimp only
  split <;> split <;> rfl

theorem processLoaded_visited (kws : Node.KeywordConfig)
    (dm dh sh : String → Option String) (maxDepth : Nat) (e : CrawlEntry)
    (ct : String × String) (s : Node.NodeState) :
    (Node.processLoaded kws dm dh sh maxDepth e ct s).visited = s.visited := by
  unfold Node.processLoaded
  dsimp only
  split <;> split <;> rfl

theorem processLoaded_processed (kws : Node.KeywordConfig)
    (dm dh sh : String → Option String) (maxDepth : Nat) (e : CrawlEntry)
    (ct : String × String) (s : Node.NodeState) :
    (Node.processLoaded kws dm dh sh maxDepth e ct s).processed = s.processed := by
  unfold Node.processLoaded
  dsimp only
  split <;> split <;> rfl

/-- Frontier entries after a successful page load are either old frontier
entries or freshly enqueued links at depth `e.depth + 1`, the latter only
below the depth limit. -/
theorem processLoaded_toVisit (kws : Node.KeywordConfig)
    (dm dh sh : String → Option String) (maxDepth : Nat) (e : CrawlEntry)
    (ct : String × String) (s : Node.NodeState) :
    ∀ x ∈ (Node.processLoaded kws dm dh sh maxDepth e ct s).toVisit,
      x ∈ s.toVisit ∨ (e.depth < maxDepth ∧ x.depth = e.depth + 1) := by
  unfold Node.processLoaded
  dsimp only
  intro x hx
  split at hx
  · rename_i hdepth
    split at hx <;>
    · rcases List.mem_append.mp hx with hold | hnew
      · exact Or.inl hold
      · rcases List.mem_map.mp hnew with ⟨l, _, hl⟩
        exact Or.inr ⟨hdepth, by rw [← hl]⟩
  · split at hx
    · exact Or.inl hx
    · exact Or.inl hx

theorem crawlLoop_nil (fetch : String → Option (String × String)) (kws : Node.KeywordConfig)
    (dm dh sh : String → Option String) (maxDepth maxPages : Nat) (s : Node.NodeState)
    (hv : s.toVisit = []) :
    Node.crawlLoop fetch kws dm dh sh maxDepth maxPages s = s := by
  rw [Node.crawlLoop.eq_def]
  split
  · rfl
  · rename_i e rest heq
    rw [hv] at heq
    simp at heq

theorem crawlLoop_stop (fetch : String → Option (String × String)) (kws : Node.KeywordConfig)
    (dm dh sh : String → Option String) (maxDepth maxPages : Nat) (s : Node.NodeState)
    (hp : ¬ s.pagesScanned < maxPages) :
    Node.crawlLoop fetch kws dm dh sh maxDepth maxPages s = s := by
  rw [Node.crawlLoop.eq_def]
  split
  · rfl
  · rw [dif_neg hp]

theorem crawlLoop_drop (fetch : String → Option (String × String)) (kws : Node.KeywordConfig)
    (dm dh sh : String → Option String) (maxDepth maxPages : Nat) (s : Node.NodeState)
    (e : CrawlEntry) (rest : List CrawlEntry) (hv : s.toVisit = e :: rest)
    (hp : s.pagesScanned < maxPages) (hg : e.url ∈ s.visited) :
    Node.crawlLoop fetch kws dm dh sh maxDepth maxPages s
      = Node.crawlLoop fetch kws dm dh sh maxDepth maxPages { s with toVisit := rest } := by
  rw [Node.crawlLoop.eq_def]
  split
  · rename_i heq
    rw [hv] at heq
    simp at heq
  · rename_i e2 rest2 heq
    rw [hv] at heq
    injection heq with he hrest
    subst he
    subst hrest
    rw [dif_pos hp, if_pos hg]

theorem crawlLoop_fetchNone (fetch : String → Option (String × String))
    (kws : Node.KeywordConfig) (dm dh sh : String → Option String)
    (maxDepth maxPages : Nat) (s : Node.NodeState) (e : CrawlEntry)
    (rest : List CrawlEntry) (hv : s.toVisit = e :: rest) (hp : s.pagesScanned < maxPages)
    (hg : ¬ e.url ∈ s.visited) (hf : fetch e.url = none) :
    Node.crawlLoop fetch kws dm dh sh maxDepth maxPages s
      = Node.crawlLoop fetch kws dm dh sh maxDepth maxPages
          { s with visited := e.url :: s.visited, toVisit := rest,
                   processed := e :: s.processed } := by
  rw [Node.crawlLoop.eq_def]
  split
  · rename_i heq
    rw [hv] at heq
    simp at heq
  · rename_i e2 rest2 heq
    rw [hv] at heq
    injection heq with he hrest
    subst he
    subst hrest
    rw [dif_pos hp, if_neg hg]
    dsimp only
    rw [hf]

theorem crawlLoop_fetchSome (fetch : String → Option (String × String))
    (kws : Node.KeywordConfig) (dm dh sh : String → Option String)
    (maxDepth maxPages : Nat) (s : Node.NodeState) (e : CrawlEntry)
    (rest : List CrawlEntry) (ct : String × String) (hv : s.toVisit = e :: rest)
    (hp : s.pagesScanned < maxPages) (hg : ¬ e.url ∈ s.visited)
    (hf : fetch e.url = some ct) :
    Node.crawlLoop fetch kws dm dh sh maxDepth maxPages s
      = Node.crawlLoop fetch kws dm dh sh maxDepth maxPages
          (Node.processLoaded kws dm dh sh maxDepth e ct
            { s with visited := e.url :: s.visited, toVisit := rest,
                     processed := e :: s.processed }) := by
  rw [Node.crawlLoop.eq_def]
  split
  · rename_i heq
    rw [hv] at heq
    simp at heq
  · rename_i e2 rest2 heq
    rw [hv] at heq
    injection heq with he hrest
    subst he
    subst hrest
    rw [dif_pos hp, if_neg hg]
    dsimp only
    rw [hf]

theorem scanLoop_budget (fetch : String → Option Client.PageDoc) (maxDepth maxPages : Nat)
    (baseDomain : String) :
    ∀ s : Client.ScanState, s.pagesScanned ≤ maxPages →
      (Client.scanLoop fetch maxDepth maxPages baseDomain s).pagesScanned ≤ maxPages := by
  intro s
  induction s using Client.scanLoop.induct fetch maxDepth maxPages baseDomain with
  | case1 s hv =>
    intro h
    rw [scanLoop_nil fetch maxDepth maxPages baseDomain s hv]
    exact h
  | case2 s e rest hv hp hg ih =>
    intro h
    rw [scanLoop_drop fetch maxDepth maxPages baseDomain s e rest hv hp hg]
    exact ih h
  | case3 s e rest hv hp hg s1 hf ih =>
    intro _
    rw [scanLoop_fetchNone fetch maxDepth maxPages baseDomain s e rest hv hp hg hf]
    exact ih (by show s.pagesScanned + 1 ≤ maxPages; omega)
  | case4 s e rest hv hp hg s1 doc hf ih =>
    intro _
    rw [scanLoop_fetchSome fetch maxDepth maxPages baseDomain s e rest doc hv hp hg hf]
    apply ih
    rw [processFetched_pagesScanned]
    show s.pagesScanned + 1 ≤ maxPages
    omega
  | case5 s e rest hv hp =>
    intro h
    rw [scanLoop_stop fetch maxDepth maxPages baseDomain s hp]
    exact h

theorem crawlLoop_budget (fetch : String → Option (String × String))
    (kws : Node.KeywordConfig) (dm dh sh : String → Option String)
    (maxDepth maxPages : Nat) :
    ∀ s : Node.NodeState, s.pagesScanned ≤ maxPages →
      (Node.crawlLoop fetch kws dm dh sh maxDepth maxPages s).pagesScanned ≤ maxPages := by
  intro s
  induction s using Node.crawlLoop.induct fetch kws dm dh sh maxDepth maxPages with
  | case1 s hv =>
    intro h
    rw [crawlLoop_nil fetch kws dm dh sh maxDepth maxPages s hv]
    exact h
  | case2 s e rest hv hp hg ih =>
    intro h
    rw [crawlLoop_drop fetch kws dm dh sh maxDepth maxPages s e rest hv hp hg]
    exact ih h
  | case3 s e rest hv hp hg s1 hf ih =>
    intro h
    rw [crawlLoop_fetchNone fetch kws dm dh sh maxDepth maxPages s e rest hv hp hg hf]
    exact ih (by show s.pagesScanned ≤ maxPages; exact h)
  | case4 s e rest hv hp hg s1 ct hf ih =>
    intro _
    rw [crawlLoop_fetchSome fetch kws dm dh sh maxDepth maxPages s e rest ct hv hp hg hf]
    apply ih
    rw [processLoaded_pagesScanned]
    show s.pagesScanned + 1 ≤ maxPages
    omega
  | case5 s e rest hv hp =>
    intro h
    rw [crawlLoop_stop fetch kws dm dh sh maxDepth maxPages s hp]
    exact h

theorem scanLoop_processed_depth (fetch : String → Option Client.PageDoc)
    (maxDepth maxPages : Nat) (baseDomain : String) :
    ∀ s : Client.ScanState, (∀ x ∈ s.processed, x.depth ≤ maxDepth) →
      ∀ x ∈ (Client.scanLoop fetch maxDepth maxPages baseDomain s).processed,
        x.depth ≤ maxDepth := by
  intro s
  induction s using Client.scanLoop.induct fetch maxDepth maxPages baseDomain with
  | case1 s hv =>
    intro h
    rw [scanLoop_nil fetch maxDepth maxPages baseDomain s hv]
    exact h
  | case2 s e rest hv hp hg ih =>
    intro h
    rw [scanLoop_drop fetch maxDepth maxPages baseDomain s e rest hv hp hg]
    exact ih h
  | case3 s e rest hv hp hg s1 hf ih =>
    intro h
    rw [scanLoop_fetchNone fetch maxDepth maxPages baseDomain s e rest hv hp hg hf]
    apply ih
    show ∀ x ∈ e :: s.processed, x.depth ≤ maxDepth
    intro x hx
    rcases List.mem_cons.mp hx with hxe | hxm
    · subst hxe
      rw [not_or] at hg
      omega
    · exact h x hxm
  | case4 s e rest hv hp hg s1 doc hf ih =>
    intro h
    rw [scanLoop_fetchSome fetch maxDepth maxPages baseDomain s e rest doc hv hp hg hf]
    apply ih
    rw [processFetched_processed]
    show ∀ x ∈ e :: s.processed, x.depth ≤ maxDepth
    intro x hx
    rcases List.mem_cons.mp hx with hxe | hxm
    · subst hxe
      rw [not_or] at hg
      omega
    · exact h x hxm
  | case5 s e rest hv hp =>
    intro h
    rw [scanLoop_stop fetch maxDepth maxPages baseDomain s hp]
    exact h

theorem crawlLoop_processed_depth (fetch : String → Option (String × String))
    (kws : Node.KeywordConfig) (dm dh sh : String → Option String)
    (maxDepth maxPages : Nat) :
    ∀ s : Node.NodeState, (∀ x ∈ s.toVisit, x.depth ≤ maxDepth) →
      (∀ x ∈ s.processed, x.depth ≤ maxDepth) →
      ∀ x ∈ (Node.crawlLoop fetch kws dm dh sh maxDepth maxPages s).processed,
        x.depth ≤ maxDepth := by
  intro s
  induction s using Node.crawlLoop.induct fetch kws dm dh sh maxDepth maxPages with
  | case1 s hv =>
    intro _ h2
    rw [crawlLoop_nil fetch kws dm dh sh maxDepth maxPages s hv]
    exact h2
  | case2 s e rest hv hp hg ih =>
    intro h1 h2
    rw [crawlLoop_drop fetch kws dm dh sh maxDepth maxPages s e rest hv hp hg]
    apply ih _ h2
    show ∀ x ∈ rest, x.depth ≤ maxDepth
    intro x hx
    exact h1 x (hv ▸ List.mem_cons_of_mem e hx)
  | case3 s e rest hv hp hg s1 hf ih =>
    intro h1 h2
    rw [crawlLoop_fetchNone fetch kws dm dh sh maxDepth maxPages s e rest hv hp hg hf]
    apply ih
    · show ∀ x ∈ rest, x.depth ≤ maxDepth
      intro x hx
      exact h1 x (hv ▸ List.mem_cons_of_mem e hx)
    · show ∀ x ∈ e :: s.processed, x.depth ≤ maxDepth
      intro x hx
      rcases List.mem_cons.mp hx with hxe | hxm
      · subst hxe
        exact h1 x (hv ▸ List.mem_cons_self x rest)
      · exact h2 x hxm
  | case4 s e rest hv hp hg s1 ct hf ih =>
    intro h1 h2
    rw [crawlLoop_fetchSome fetch kws dm dh sh maxDepth maxPages s e rest ct hv hp hg hf]
    apply ih
    · intro x hx
      rcases processLoaded_toVisit kws dm dh sh maxDepth e ct s1 x hx with hold | ⟨hd, hdep⟩
      · have hold2 : x ∈ rest := hold
        exact h1 x (hv ▸ List.mem_cons_of_mem e hold2)
      · omega
    · rw [processLoaded_processed]
      show ∀ x ∈ e :: s.processed, x.depth ≤ maxDepth
      intro x hx
      rcases List.mem_cons.mp hx with hxe | hxm
      · subst hxe
        exact h1 x (hv ▸ List.mem_cons_self x rest)
      · exact h2 x hxm
  | case5 s e rest hv hp =>
    intro _ h2
    rw [crawlLoop_stop fetch kws dm dh sh maxDepth maxPages s hp]
    exact h2

theorem scanLoop_visited_mono (fetch : String → Option Client.PageDoc)
    (maxDepth maxPages : Nat) (baseDomain : String) :
    ∀ s : Client.ScanState, ∀ x ∈ s.visited,
      x ∈ (Client.scanLoop fetch maxDepth maxPages baseDomain s).visited := by
  intro s
  induction s using Client.scanLoop.induct fetch maxDepth maxPages baseDomain with
  | case1 s hv =>
    intro x hx
    rw [scanLoop_nil fetch maxDepth maxPages baseDomain s hv]
    exact hx
  | case2 s e rest hv hp hg ih =>
    intro x hx
    rw [scanLoop_drop fetch maxDepth maxPages baseDomain s e rest hv hp hg]
    exact ih x hx
  | case3 s e rest hv hp hg s1 hf ih =>
    intro x hx
    rw [scanLoop_fetchNone fetch maxDepth maxPages baseDomain s e rest hv hp hg hf]
    exact ih x (List.mem_cons_of_mem e.url hx)
  | case4 s e rest hv hp hg s1 doc hf ih =>
    intro x hx
    rw [scanLoop_fetchSome fetch maxDepth maxPages baseDomain s e rest doc hv hp hg hf]
    apply ih
    rw [processFetched_visited]
    exact List.mem_cons_of_mem e.url hx
  | case5 s e rest hv hp =>
    intro x hx
    rw [scanLoop_stop fetch maxDepth maxPages baseDomain s hp]
    exact hx

theorem crawlLoop_visited_mono (fetch : String → Option (String × String))
    (kws : Node.KeywordConfig) (dm dh sh : String → Option String)
    (maxDepth maxPages : Nat) :
    ∀ s : Node.NodeState, ∀ x ∈ s.visited,
      x ∈ (Node.crawlLoop fetch kws dm dh sh maxDepth maxPages s).visited := by
  intro s
  induction s using Node.crawlLoop.induct fetch kws dm dh sh maxDepth maxPages with
  | case1 s hv =>
    intro x hx
    rw [crawlLoop_nil fetch kws dm dh sh maxDepth maxPages s hv]
    exact hx
  | case2 s e rest hv hp hg ih =>
    intro x hx
    rw [crawlLoop_drop fetch kws dm dh sh maxDepth maxPages s e rest hv hp hg]
    exact ih x hx
  | case3 s e rest hv hp hg s1 hf ih =>
    intro x hx
    rw [crawlLoop_fetchNone fetch kws dm dh sh maxDepth maxPages s e rest hv hp hg hf]
    exact ih x (List.mem_cons_of_mem e.url hx)
  | case4 s e rest hv hp hg s1 ct hf ih =>
    intro x hx
    rw [crawlLoop_fetchSome fetch kws dm dh sh maxDepth maxPages s e rest ct hv hp hg hf]
    apply ih
    rw [processLoaded_visited]
    exact List.mem_cons_of_mem e.url hx
  | case5 s e rest hv hp =>
    intro x hx
    rw [crawlLoop_stop fetch kws dm dh sh maxDepth maxPages s hp]
    exact hx

theorem scanLoop_once (fetch : String → Option Client.PageDoc)
    (maxDepth maxPages : Nat) (baseDomain : String) :
    ∀ s : Client.ScanState,
      (∀ x ∈ s.processed, x.url ∈ s.visited) →
      (s.processed.map (fun x => x.url)).Nodup →
      (∀ x ∈ (Client.scanLoop fetch maxDepth maxPages baseDomain s).processed,
        x.url ∈ (Client.scanLoop fetch maxDepth maxPages baseDomain s).visited)
      ∧ (((Client.scanLoop fetch maxDepth maxPages baseDomain s).processed.map
          (fun x => x.url)).Nodup) := by
  intro s
  induction s using Client.scanLoop.induct fetch maxDepth maxPages baseDomain with
  | case1 s hv =>
    intro h1 h2
    rw [scanLoop_nil fetch maxDepth maxPages baseDomain s hv]
    exact ⟨h1, h2⟩
  | case2 s e rest hv hp hg ih =>
    intro h1 h2
    rw [scanLoop_drop fetch maxDepth maxPages baseDomain s e rest hv hp hg]
    exact ih h1 h2
  | case3 s e rest hv hp hg s1 hf ih =>
    intro h1 h2
    rw [scanLoop_fetchNone fetch maxDepth maxPages baseDomain s e rest hv hp hg hf]
    apply ih
    · show ∀ x ∈ e :: s.processed, x.url ∈ e.url :: s.visited
      intro x hx
      rcases List.mem_cons.mp hx with hxe | hxm
      · subst hxe
        exact List.mem_cons_self x.url s.visited
      · exact List.mem_cons_of_mem e.url (h1 x hxm)
    · show ((e :: s.processed).map (fun x => x.url)).Nodup
      simp only [List.map_cons, List.nodup_cons]
      refine ⟨?_, h2⟩
      intro hmem
      rcases List.mem_map.mp hmem with ⟨f, hfm, hfe⟩
      exact hg (Or.inl (hfe ▸ h1 f hfm))
  | case4 s e rest hv hp hg s1 doc hf ih =>
    intro h1 h2
    rw [scanLoop_fetchSome fetch maxDepth maxPages baseDomain s e rest doc hv hp hg hf]
    apply ih
    · rw [processFetched_processed, processFetched_visited]
      show ∀ x ∈ e :: s.processed, x.url ∈ e.url :: s.visited
      intro x hx
      rcases List.mem_cons.mp hx with hxe | hxm
      · subst hxe
        exact List.mem_cons_self x.url s.visited
      · exact List.mem_cons_of_mem e.url (h1 x hxm)
    · rw [processFetched_processed]
      show ((e :: s.processed).map (fun x => x.url)).Nodup
      simp only [List.map_cons, List.nodup_cons]
      refine ⟨?_, h2⟩
      intro hmem
      rcases List.mem_map.mp hmem with ⟨f, hfm, hfe⟩
      exact hg (Or.inl (hfe ▸ h1 f hfm))
  | case5 s e rest hv hp =>
    intro h1 h2
    rw [scanLoop_stop fetch maxDepth maxPages baseDomain s hp]
    exact ⟨h1, h2⟩

theorem crawlLoop_once (fetch : String → Option (String × String))
    (kws : Node.KeywordConfig) (dm dh sh : String → Option String)
    (maxDepth maxPages : Nat) :
    ∀ s : Node.NodeState,
      (∀ x ∈ s.processed, x.url ∈ s.visited) →
      (s.processed.map (fun x => x.url)).Nodup →
      (∀ x ∈ (Node.crawlLoop fetch kws dm dh sh maxDepth maxPages s).processed,
        x.url ∈ (Node.crawlLoop fetch kws dm dh sh maxDepth maxPages s).visited)
      ∧ (((Node.crawlLoop fetch kws dm dh sh maxDepth maxPages s).processed.map
          (fun x => x.url)).Nodup) := by
  intro s
  induction s using Node.crawlLoop.induct fetch kws dm dh sh maxDepth maxPages with
  | case1 s hv =>
    intro h1 h2
    rw [crawlLoop_nil fetch kws dm dh sh maxDepth maxPages s hv]
    exact ⟨h1, h2⟩
  | case2 s e rest hv hp hg ih =>
    intro h1 h2
    rw [crawlLoop_drop fetch kws dm dh sh maxDepth maxPages s e rest hv hp hg]
    exact ih h1 h2
  | case3 s e rest hv hp hg s1 hf ih =>
    intro h1 h2
    rw [crawlLoop_fetchNone fetch kws dm dh sh maxDepth maxPages s e rest hv hp hg hf]
    apply ih
    · show ∀ x ∈ e :: s.processed, x.url ∈ e.url :: s.visited
      intro x hx
      rcases List.mem_cons.mp hx with hxe | hxm
      · subst hxe
        exact List.mem_cons_self x.url s.visited
      · exact List.mem_cons_of_mem e.url (h1 x hxm)
    · show ((e :: s.processed).map (fun x => x.url)).Nodup
      simp only [List.map_cons, List.nodup_cons]
      refine ⟨?_, h2⟩
      intro hmem
      rcases List.mem_map.mp hmem with ⟨f, hfm, hfe⟩
      exact hg (hfe ▸ h1 f hfm)
  | case4 s e rest hv hp hg s1 ct hf ih =>
    intro h1 h2
    rw [crawlLoop_fetchSome fetch kws dm dh sh maxDepth maxPages s e rest ct hv hp hg hf]
    apply ih
    · rw [processLoaded_processed, processLoaded_visited]
      show ∀ x ∈ e :: s.processed, x.url ∈ e.url :: s.visited
      intro x hx
      rcases List.mem_cons.mp hx with hxe | hxm
      · subst hxe
        exact List.mem_cons_self x.url s.visited
      · exact List.mem_cons_of_mem e.url (h1 x hxm)
    · rw [processLoaded_processed]
      show ((e :: s.processed).map (fun x => x.url)).Nodup
      simp only [List.map_cons, List.nodup_cons]
      refine ⟨?_, h2⟩
      intro hmem
      rcases List.mem_map.mp hmem with ⟨f, hfm, hfe⟩
      exact hg (hfe ▸ h1 f hfm)
  | case5 s e rest hv hp =>
    intro h1 h2
    rw [crawlLoop_stop fetch kws dm dh sh maxDepth maxPages s hp]
    exact ⟨h1, h2⟩

/-- Claim C1: in both crawl implementations the number of pages scanned
never exceeds the configured page budget — the crawl loop preserves
`pagesScanned ≤ maxPages` at every step, and the returned site-scan result
satisfies the bound (an error result reports 0 pages). -/
theorem claim_C1_theorem :
    (∀ (fetch : String → Option Client.PageDoc) (maxDepth maxPages : Nat) (startUrl : String),
      (match Client.scanWebsite fetch maxDepth maxPages startUrl with
        | .ok r => r.pagesScanned
        | .error _ => 0) ≤ maxPages)
    ∧ (∀ (fetch : String → Option Client.PageDoc) (maxDepth maxPages : Nat)
          (baseDomain : String) (s : Client.ScanState),
        s.pagesScanned ≤ maxPages →
        (Client.scanLoop fetch maxDepth maxPages baseDomain s).pagesScanned ≤ maxPages)
    ∧ (∀ (fetch : String → Option (String × String)) (kws : Node.KeywordConfig)
          (dm dh sh : String → Option String) (maxDepth maxPages : Nat) (startUrl : String),
        (Node.crawlSite fetch kws dm dh sh maxDepth maxPages startUrl).pagesScanned ≤ maxPages)
    ∧ (∀ (fetch : String → Option (String × String)) (kws : Node.KeywordConfig)
          (dm dh sh : String → Option String) (maxDepth maxPages : Nat) (s : Node.NodeState),
        s.pagesScanned ≤ maxPages →
        (Node.crawlLoop fetch kws dm dh sh maxDepth maxPages s).pagesScanned ≤ maxPages) := by
  refine ⟨?_, ?_, ?_, ?_⟩
  · intro fetch maxDepth maxPages startUrl
    unfold Client.scanWebsite
    rcases parseAbs startUrl with _ | u
    · exact Nat.zero_le _
    · exact scanLoop_budget fetch maxDepth maxPages _ _ (Nat.zero_le _)
  · exact fun fetch maxDepth maxPages baseDomain s h =>
      scanLoop_budget fetch maxDepth maxPages baseDomain s h
  · intro fetch kws dm dh sh maxDepth maxPages startUrl
    unfold Node.crawlSite
    exact crawlLoop_budget fetch kws dm dh sh maxDepth maxPages _ (Nat.zero_le _)
  · exact fun fetch kws dm dh sh maxDepth maxPages s h =>
      crawlLoop_budget fetch kws dm dh sh maxDepth maxPages s h

/-- Witness for claim C1 at a concrete crawl state below the budget. -/
theorem claim_C1_witness :
    ((Client.initState "https://bank.example/").pagesScanned ≤ 30
      ∧ (Client.scanLoop (fun _ => none) 2 30 "https://bank.example"
          (Client.initState "https://bank.example/")).pagesScanned ≤ 30)
    ∧ ((Node.initState "https://bank.example/").pagesScanned ≤ 30
      ∧ (Node.crawlLoop (fun _ => none) c10Config probeNone probeNone probeNone 2 30
          (Node.initState "https://bank.example/")).pagesScanned ≤ 30) :=
  ⟨⟨by decide,
    claim_C1_theorem.2.1 (fun _ => none) 2 30 "https://bank.example"
      (Client.initState "https://bank.example/") (by decide)⟩,
   ⟨by decide,
    claim_C1_theorem.2.2.2 (fun _ => none) c10Config probeNone probeNone probeNone 2 30
      (Node.initState "https://bank.example/") (by decide)⟩⟩

/-- Claim C2: no frontier entry with `depth > maxDepth` is ever processed.
In the basic client loop such an entry is discarded at dequeue time
without counting against the page budget or being processed (the step
equation leaves `pagesScanned` and `processed` unchanged), and every
processed entry has `depth ≤ maxDepth`; in the scraper loop, entries
deeper than `maxDepth` never enter the frontier, so every processed entry
likewise has `depth ≤ maxDepth`. -/
theorem claim_C2_theorem :
    (∀ (fetch : String → Option Client.PageDoc) (maxDepth maxPages : Nat)
        (baseDomain : String) (s : Client.ScanState) (e : CrawlEntry)
        (rest : List CrawlEntry),
      s.toVisit = e :: rest → s.pagesScanned < maxPages →
      (e.url ∈ s.visited ∨ maxDepth < e.depth) →
      Client.scanLoop fetch maxDepth maxPages baseDomain s
        = Client.scanLoop fetch maxDepth maxPages baseDomain { s with toVisit := rest })
    ∧ (∀ (fetch : String → Option Client.PageDoc) (maxDepth maxPages : Nat)
          (baseDomain : String) (s : Client.ScanState),
        (∀ x ∈ s.processed, x.depth ≤ maxDepth) →
        ∀ x ∈ (Client.scanLoop fetch maxDepth maxPages baseDomain s).processed,
          x.depth ≤ maxDepth)
    ∧ (∀ (fetch : String → Option (String × String)) (kws : Node.KeywordConfig)
          (dm dh sh : String → Option String) (maxDepth maxPages : Nat)
          (s : Node.NodeState),
        (∀ x ∈ s.toVisit, x.depth ≤ maxDepth) → (∀ x ∈ s.processed, x.depth ≤ maxDepth) →
        ∀ x ∈ (Node.crawlLoop fetch kws dm dh sh maxDepth maxPages s).processed,
          x.depth ≤ maxDepth) :=
  ⟨fun fetch maxDepth maxPages baseDomain s e rest hv hp hg =>
     scanLoop_drop fetch maxDepth maxPages baseDomain s e rest hv hp hg,
   fun fetch maxDepth maxPages baseDomain s h =>
     scanLoop_processed_depth fetch maxDepth maxPages baseDomain s h,
   fun fetch kws dm dh sh maxDepth maxPages s h1 h2 =>
     crawlLoop_processed_depth fetch kws dm dh sh maxDepth maxPages s h1 h2⟩

/-- Witness for claim C2: a too-deep head entry is dropped by the client
loop, and from the seeded initial states every processed entry respects
the depth limit. -/
theorem claim_C2_witness :
    (Client.scanLoop (fun _ => none) 2 30 "https://bank.example"
        { visited := [], toVisit := [⟨"https://bank.example/deep", 5⟩], pagesScanned := 0,
          discoveredApis := [], apiRelatedPages := [], processed := [] }
      = Client.scanLoop (fun _ => none) 2 30 "https://bank.example"
        { visited := [], toVisit := [], pagesScanned := 0,
          discoveredApis := [], apiRelatedPages := [], processed := [] })
    ∧ (∀ x ∈ (Client.scanLoop (fun _ => none) 2 30 "https://bank.example"
        (Client.initState "https://bank.example/")).processed, x.depth ≤ 2)
    ∧ (∀ x ∈ (Node.crawlLoop (fun _ => none) c10Config probeNone probeNone probeNone 2 30
        (Node.initState "https://bank.example/")).processed, x.depth ≤ 2) :=
  ⟨claim_C2_theorem.1 (fun _ => none) 2 30 "https://bank.example" _
      ⟨"https://bank.example/deep", 5⟩ [] rfl (by decide) (by decide),
   claim_C2_theorem.2.1 (fun _ => none) 2 30 "https://bank.example"
      (Client.initState "https://bank.example/") (by simp [Client.initState]),
   claim_C2_theorem.2.2 (fun _ => none) c10Config probeNone probeNone probeNone 2 30
      (Node.initState "https://bank.example/") (by simp [Node.initState])
      (by simp [Node.initState])⟩

/-- Claim C3: within one site crawl, in both implementations, the visited
set only grows (membership is preserved by the crawl loop) and each URL is
processed at most once (the processed-entry URLs are duplicate-free,
because every processed URL is in the visited set and the visited guard
blocks reprocessing). -/
theorem claim_C3_theorem :
    (∀ (fetch : String → Option Client.PageDoc) (maxDepth maxPages : Nat)
        (baseDomain : String) (s : Client.ScanState) (x : String),
      x ∈ s.visited →
      x ∈ (Client.scanLoop fetch maxDepth maxPages baseDomain s).visited)
    ∧ (∀ (fetch : String → Option Client.PageDoc) (maxDepth maxPages : Nat)
          (baseDomain : String) (s : Client.ScanState),
        (∀ x ∈ s.processed, x.url ∈ s.visited) →
        (s.processed.map (fun x => x.url)).Nodup →
        (((Client.scanLoop fetch maxDepth maxPages baseDomain s).processed.map
          (fun x => x.url)).Nodup))
    ∧ (∀ (fetch : String → Option (String × String)) (kws : Node.KeywordConfig)
          (dm dh sh : String → Option String) (maxDepth maxPages : Nat)
          (s : Node.NodeState) (x : String),
        x ∈ s.visited →
        x ∈ (Node.crawlLoop fetch kws dm dh sh maxDepth maxPages s).visited)
    ∧ (∀ (fetch : String → Option (String × String)) (kws : Node.KeywordConfig)
          (dm dh sh : String → Option String) (maxDepth maxPages : Nat)
          (s : Node.NodeState),
        (∀ x ∈ s.processed, x.url ∈ s.visited) →
        (s.processed.map (fun x => x.url)).Nodup →
        (((Node.crawlLoop fetch kws dm dh sh maxDepth maxPages s).processed.map
          (fun x => x.url)).Nodup)) :=
  ⟨fun fetch maxDepth maxPages baseDomain s x hx =>
     scanLoop_visited_mono fetch maxDepth maxPages baseDomain s x hx,
   fun fetch maxDepth maxPages baseDomain s h1 h2 =>
     (scanLoop_once fetch maxDepth maxPages baseDomain s h1 h2).2,
   fun fetch kws dm dh sh maxDepth maxPages s x hx =>
     crawlLoop_visited_mono fetch kws dm dh sh maxDepth maxPages s x hx,
   fun fetch kws dm dh sh maxDepth maxPages s h1 h2 =>
     (crawlLoop_once fetch kws dm dh sh maxDepth maxPages s h1 h2).2⟩

/-- Witness for claim C3 at a concrete state with one visited URL and from
the seeded initial states. -/
theorem claim_C3_witness :
    ("https://bank.example/seen"
        ∈ (Client.scanLoop (fun _ => none) 2 30 "https://bank.example"
            { visited := ["https://bank.example/seen"], toVisit := [], pagesScanned := 0,
              discoveredApis := [], apiRelatedPages := [], processed := [] }).visited)
    ∧ (((Client.scanLoop (fun _ => none) 2 30 "https://bank.example"
        (Client.initState "https://bank.example/")).processed.map (fun x => x.url)).Nodup)
    ∧ ("https://bank.example/seen"
        ∈ (Node.crawlLoop (fun _ => none) c10Config probeNone probeNone probeNone 2 30
            { visited := ["https://bank.example/seen"], toVisit := [], pagesScanned := 0,
              apis := [], apiRelatedPages := [], processed := [] }).visited)
    ∧ (((Node.crawlLoop (fun _ => none) c10Config probeNone probeNone probeNone 2 30
        (Node.initState "https://bank.example/")).processed.map (fun x => x.url)).Nodup) :=
  ⟨claim_C3_theorem.1 (fun _ => none) 2 30 "https://bank.example" _ _ (by decide),
   claim_C3_theorem.2.1 (fun _ => none) 2 30 "https://bank.example"
     (Client.initState "https://bank.example/") (by simp [Client.initState])
     (by simp [Client.initState]),
   claim_C3_theorem.2.2.1 (fun _ => none) c10Config probeNone probeNone probeNone 2 30 _ _
     (by decide),
   claim_C3_theorem.2.2.2 (fun _ => none) c10Config probeNone probeNone probeNone 2 30
     (Node.initState "https://bank.example/") (by simp [Node.initState])
     (by simp [Node.initState])⟩

/-- Claim C9: the multi-site scan returns exactly one `SiteScanResult` per
seed URL (the result list is the pointwise image of the seed list, so one
seed's failure cannot affect any other seed's result), and a site-level
failure — an unparsable seed URL — yields a result with status `"error"`,
a non-empty human-readable message, an empty API list and zero pages
scanned.  The embedding is total, modelling that `discoverApis` never
throws. -/
theorem claim_C9_theorem :
    (∀ (fetch : String → Option Client.PageDoc) (maxDepth maxPages : Nat)
        (urls : List String),
      (Client.discoverApis fetch maxDepth maxPages urls).scanResults.length = urls.length)
    ∧ (∀ (fetch : String → Option Client.PageDoc) (maxDepth maxPages : Nat)
          (urls : List String),
        (Client.discoverApis fetch maxDepth maxPages urls).scanResults
          = urls.map (Client.scanSeed fetch maxDepth maxPages))
    ∧ (∀ (fetch : String → Option Client.PageDoc) (maxDepth maxPages : Nat) (u : String),
        parseAbs u = none →
        Client.scanSeed fetch maxDepth maxPages u
          = { url := u, status := "error", error := some ("Invalid URL: " ++ u),
              pagesScanned := 0, apis := [] }
          ∧ ("Invalid URL: " ++ u) ≠ "") := by
  refine ⟨?_, ?_, ?_⟩
  · intro fetch maxDepth maxPages urls
    simp [Client.discoverApis]
  · intro fetch maxDepth maxPages urls
    rfl
  · intro fetch maxDepth maxPages u hparse
    constructor
    · unfold Client.scanSeed Client.scanWebsite
      rw [hparse]
    · intro hempty
      have hdata := congrArg String.data hempty
      rw [String.data_append] at hdata
      simp at hdata

/-- Witness for claim C9: a two-seed scan where the first seed URL is
unparsable — it yields an error-status result with a message, no APIs and
zero pages, while the second seed still gets its own result. -/
theorem claim_C9_witness :
    (Client.discoverApis (fun _ => none) 2 30 ["notaurl", "https://ok.example/"]).scanResults.length
        = 2
    ∧ (Client.discoverApis (fun _ => none) 2 30 ["notaurl", "https://ok.example/"]).scanResults
        = [Client.scanSeed (fun _ => none) 2 30 "notaurl",
           Client.scanSeed (fun _ => none) 2 30 "https://ok.example/"]
    ∧ Client.scanSeed (fun _ => none) 2 30 "notaurl"
        = { url := "notaurl", status := "error", error := some ("Invalid URL: " ++ "notaurl"),
            pagesScanned := 0, apis := [] }
    ∧ ("Invalid URL: " ++ "notaurl") ≠ "" := by
  have h3 := claim_C9_theorem.2.2 (fun _ => none) 2 30 "notaurl" (by decide)
  exact ⟨claim_C9_theorem.1 (fun _ => none) 2 30 ["notaurl", "https://ok.example/"],
    claim_C9_theorem.2.1 (fun _ => none) 2 30 ["notaurl", "https://ok.example/"],
    h3.1, h3.2⟩
